import Mathlib

/-!
Verification development for the CMS coverage-article code parser
(`app/utils/code_parser.py`).  The Python source is shallowly embedded:
each Python function becomes a total executable Lean definition over
`String` / `List Char`, dictionaries become insertion-ordered association
lists, and records with possibly-missing fields become structures with
`Option` fields (a missing key is `none`; `dict.get(k, d)` is `Option.getD`).

Regular expressions in the source are embedded as hand-rolled scanners that
follow the Python `re` semantics for the concrete patterns in the source
(ordered alternation, greedy and lazy quantifiers with backtracking,
leftmost non-overlapping `finditer`).  Character classes mirror the ASCII
reading of `\d`, `\w`, `\s`.  Recursive scanners take an explicit fuel
argument (always instantiated with the input length, which each scanner
strictly consumes) so that every definition is structurally recursive and
reduces inside the kernel.
-/

/-- ASCII digit, the model of the regex class `\d`. -/
def isDigitCh (c : Char) : Bool := decide (48 ≤ c.toNat ∧ c.toNat ≤ 57)

/-- Uppercase ASCII letter, the model of the regex class `[A-Z]`. -/
def isUpperAZ (c : Char) : Bool := decide (65 ≤ c.toNat ∧ c.toNat ≤ 90)

/-- Lowercase ASCII letter. -/
def isLowerAZ (c : Char) : Bool := decide (97 ≤ c.toNat ∧ c.toNat ≤ 122)

/-- Word character, the model of the regex class `\w`. -/
def isWordCh (c : Char) : Bool := isUpperAZ c || isLowerAZ c || isDigitCh c || decide (c.toNat = 95)

/-- Whitespace, the model of the regex class `\s` and of `str.strip`. -/
def isSpaceCh (c : Char) : Bool :=
  decide (c.toNat = 32 ∨ c.toNat = 9 ∨ c.toNat = 10 ∨ c.toNat = 13 ∨ c.toNat = 11 ∨ c.toNat = 12)

/-- Case-insensitive character comparison against a lowercase pattern
character `p`, the model of `re.IGNORECASE` on ASCII patterns. -/
def eqCI (p c : Char) : Bool :=
  decide (c.toNat = p.toNat ∨ (65 ≤ c.toNat ∧ c.toNat ≤ 90 ∧ c.toNat + 32 = p.toNat))

/-- Case-insensitive prefix test; the pattern is given in lowercase. -/
def startsWithCI : List Char → List Char → Bool
  | [], _ => true
  | _ :: _, [] => false
  | p :: ps, c :: cs => eqCI p c && startsWithCI ps cs

/-- Model of Python `str.strip()`: drop whitespace from both ends. -/
def pyStrip (cs : List Char) : List Char :=
  ((cs.dropWhile isSpaceCh).reverse.dropWhile isSpaceCh).reverse

/-- Model of Python `str.strip()` on `String`. -/
def pyStripS (s : String) : String := ⟨pyStrip s.data⟩

/-- Model of Python `str.replace(pat, rep)`: leftmost non-overlapping
replacement, scanning left to right and not rescanning the replacement.
The fuel is instantiated with the input length; every step consumes at
least one character of the remaining input (all patterns used are
nonempty). -/
def replaceFuel (pat rep : List Char) : Nat → List Char → List Char
  | 0, s => s
  | _ + 1, [] => []
  | f + 1, c :: rest =>
    if pat ≠ [] ∧ pat.isPrefixOf (c :: rest) then
      rep ++ replaceFuel pat rep f ((c :: rest).drop pat.length)
    else
      c :: replaceFuel pat rep f rest

/-- Model of Python `str.replace(pat, rep)`. -/
def replaceL (pat rep s : List Char) : List Char := replaceFuel pat rep s.length s

/-- Named HTML entity table used to model `html.unescape`.  The model is
restricted to the named references relevant to this source (the generic
pass of `html.unescape` over the full HTML5 table and numeric character
references is not needed by any input considered here); entries with a
semicolon come first so the longest reference wins, as in Python. -/
def entityTable : List (List Char × List Char) :=
  [("amp;".data, "&".data), ("lt;".data, "<".data), ("gt;".data, ">".data),
   ("quot;".data, "\"".data), ("nbsp;".data, " ".data),
   ("amp".data, "&".data), ("lt".data, "<".data), ("gt".data, ">".data),
   ("quot".data, "\"".data), ("nbsp".data, " ".data)]

/-- Try to match an entity name (after a `&`) against the table, returning
the replacement and the number of characters consumed. -/
def matchEntity : List (List Char × List Char) → List Char → Option (List Char × Nat)
  | [], _ => none
  | (pat, rep) :: rest, s =>
    if pat.isPrefixOf s then some (rep, pat.length) else matchEntity rest s

/-- Model of `html.unescape`: replace recognized `&name;` references in a
single left-to-right pass.  Fuel is instantiated with the input length. -/
def htmlUnescapeF : Nat → List Char → List Char
  | 0, s => s
  | _ + 1, [] => []
  | f + 1, c :: rest =>
    if c = '&' then
      match matchEntity entityTable rest with
      | some (rep, n) => rep ++ htmlUnescapeF f (rest.drop n)
      | none => c :: htmlUnescapeF f rest
    else
      c :: htmlUnescapeF f rest

/-- The entity unescape pass on a character list. -/
def htmlUnescapeL (s : List Char) : List Char := htmlUnescapeF s.length s

/-- Embedding of `unescape_html` (code_parser.py lines 7-14): returns `""`
for empty input, otherwise applies the five fixed double-escape
replacements, chained in source order exactly as the Python method chain
is, and then the generic entity unescape pass. -/
def unescape_html (text : String) : String :=
  if text = "" then ""
  else
    ⟨htmlUnescapeL
      (replaceL "&quot;".data "\"".data
        (replaceL "&amp;".data "&".data
          (replaceL "&sol;".data "/".data
            (replaceL "&gt;".data ">".data
              (replaceL "&lt;".data "<".data text.data)))))⟩

/-- Decimal digit character for `n % 10`. -/
def natDigit : Nat → Char
  | 0 => '0' | 1 => '1' | 2 => '2' | 3 => '3' | 4 => '4'
  | 5 => '5' | 6 => '6' | 7 => '7' | 8 => '8' | _ => '9'

/-- Decimal digits of a natural number (fuel-based; the fuel bounds the
number of digits, `n + 1` is always enough). -/
def natDigitsF : Nat → Nat → List Char
  | 0, _ => []
  | f + 1, n => if n < 10 then [natDigit n] else natDigitsF f (n / 10) ++ [natDigit (n % 10)]

/-- Decimal digits of a natural number; the model of Python `str(int)`. -/
def natDigits (n : Nat) : List Char := natDigitsF (n + 1) n

/-- Model of Python `str` on a nonnegative int. -/
def pyStr (n : Nat) : String := ⟨natDigits n⟩

/-- Model of Python `int` on a digit string. -/
def digitsVal (cs : List Char) : Nat := cs.foldl (fun a c => a * 10 + (c.toNat - 48)) 0

/-- Model of the format specifier `%04d` used in `f"{prefix}{c:04d}"`. -/
def pad4 (n : Nat) : List Char :=
  let d := natDigits n
  List.replicate (4 - d.length) '0' ++ d

/-- One step of the word-boundary test `\b` before a position: true at the
start of the text or after a non-word character. -/
def boundaryPrev : Option Char → Bool
  | none => true
  | some p => !(isWordCh p)

/-- Word boundary after a position: true at end of text or before a
non-word character. -/
def noWordAhead : List Char → Bool
  | [] => true
  | c :: _ => !(isWordCh c)

/-- Does the text start with a whole-word, case-insensitive `and`
(the pattern `\band\b` of `_parse_code_list`)? -/
def isAndAt (prev : Option Char) : List Char → Bool
  | a :: n :: d :: rest =>
    eqCI 'a' a && eqCI 'n' n && eqCI 'd' d && boundaryPrev prev && noWordAhead rest
  | _ => false

/-- Model of `re.sub(r"\band\b", ",", s, flags=re.IGNORECASE)`; `prev` is
the character before the current position (for `\b`).  Fuel is
instantiated with the input length. -/
def subAndF : Nat → Option Char → List Char → List Char
  | 0, _, s => s
  | _ + 1, _, [] => []
  | f + 1, prev, c :: rest =>
    if isAndAt prev (c :: rest) then ',' :: subAndF f (some 'd') (rest.drop 2)
    else c :: subAndF f (some c) rest

/-- Model of `re.sub(r"\band\b", ",", s, flags=re.IGNORECASE)`. -/
def subAnd (s : List Char) : List Char := subAndF s.length none s

/-- Separator of the split pattern `[,/]+`. -/
def isSepCh (c : Char) : Bool := decide (c.toNat = 44 ∨ c.toNat = 47)

/-- Model of `re.split(r"[,/]+", s)`: split on maximal runs of commas and
slashes, keeping empty leading/trailing segments as Python does.  Fuel is
instantiated with the input length. -/
def splitCSF : Nat → List Char → List Char → List (List Char)
  | 0, acc, _ => [acc.reverse]
  | _ + 1, acc, [] => [acc.reverse]
  | f + 1, acc, c :: rest =>
    if isSepCh c then acc.reverse :: splitCSF f [] (rest.dropWhile isSepCh)
    else splitCSF f (c :: acc) rest

/-- Model of `re.split(r"[,/]+", s)`. -/
def splitCS (s : List Char) : List (List Char) := splitCSF s.length [] s

/-- Model of `re.match(r"^(\d{4,5})\s*[-–]\s*(\d{4,5})$", part)`: on
success returns the integer values of the two captured digit groups.
The greedy `\d{4,5}` with the following mandatory dash (resp. end of
string) forces each group to be a maximal digit run of length 4 or 5. -/
def matchNumRange (cs : List Char) : Option (Nat × Nat) :=
  let d1 := cs.takeWhile isDigitCh
  let r1 := cs.dropWhile isDigitCh
  if 4 ≤ d1.length ∧ d1.length ≤ 5 then
    match r1.dropWhile isSpaceCh with
    | c :: r3 =>
      if c = '-' ∨ c = '–' then
        let r4 := r3.dropWhile isSpaceCh
        let d2 := r4.takeWhile isDigitCh
        let r5 := r4.dropWhile isDigitCh
        if 4 ≤ d2.length ∧ d2.length ≤ 5 ∧ r5 = [] then some (digitsVal d1, digitsVal d2)
        else none
      else none
    | [] => none
  else none

/-- Model of `re.match(r"^([A-Z])(\d{4})\s*[-–]\s*([A-Z])(\d{4})$", part)`:
on success returns the two letter prefixes and the integer values of the
two 4-digit groups (the exact-count `\d{4}` followed by a non-digit forces
each digit run to have length exactly 4). -/
def matchAlphaRange : List Char → Option (Char × Nat × Char × Nat)
  | [] => none
  | c1 :: r1 =>
    if isUpperAZ c1 then
      if (r1.takeWhile isDigitCh).length = 4 then
        match (r1.dropWhile isDigitCh).dropWhile isSpaceCh with
        | s :: r4 =>
          if s = '-' ∨ s = '–' then
            match r4.dropWhile isSpaceCh with
            | c3 :: r6 =>
              if isUpperAZ c3 then
                if (r6.takeWhile isDigitCh).length = 4 ∧ r6.dropWhile isDigitCh = [] then
                  some (c1, digitsVal (r1.takeWhile isDigitCh), c3,
                    digitsVal (r6.takeWhile isDigitCh))
                else none
              else none
            | [] => none
          else none
        | [] => none
      else none
    else none

/-- Model of `re.match(r"^([A-Z]?\d{4,5})$", part)`: an optional uppercase
letter followed by 4 or 5 digits spanning the whole token. -/
def matchSingle : List Char → Option String
  | [] => none
  | c :: rest =>
    if isUpperAZ c then
      if rest.all isDigitCh ∧ 4 ≤ rest.length ∧ rest.length ≤ 5 then some ⟨c :: rest⟩ else none
    else
      if (c :: rest).all isDigitCh ∧ 4 ≤ (c :: rest).length ∧ (c :: rest).length ≤ 5 then
        some ⟨c :: rest⟩
      else none

/-- The single-code branch at the end of the token loop of
`_parse_code_list` (lines 84-87). -/
def singleResult (acc : List String) (part : List Char) : List String :=
  match matchSingle part with
  | some code => acc ++ [code]
  | none => acc

/-- The body of the token loop of `_parse_code_list` (lines 62-87): strip
the token, skip it if empty, try the numeric range, then the alpha range
(falling through to the single-code check when the two letter prefixes
differ, as the source does), then the single code. -/
def parsePart (acc : List String) (rawPart : List Char) : List String :=
  if (pyStrip rawPart).isEmpty then acc
  else
    match matchNumRange (pyStrip rawPart) with
    | some (a, b) =>
      if b - a ≤ 500 then acc ++ (List.range' a (b + 1 - a)).map pyStr else acc
    | none =>
      match matchAlphaRange (pyStrip rawPart) with
      | some (c1, a, c3, b) =>
        if c1 = c3 then
          if b - a ≤ 500 then
            acc ++ (List.range' a (b + 1 - a)).map (fun n => String.mk (c1 :: pad4 n))
          else acc
        else singleResult acc (pyStrip rawPart)
      | none => singleResult acc (pyStrip rawPart)

/-- Embedding of `_parse_code_list` (code_parser.py lines 54-89). -/
def parse_code_list (s : String) : List String :=
  ((splitCS (subAnd s.data)).foldl parsePart [])

/-- For the tag pattern `<[^>]+>` applied just after a `<`: the number of
characters (at least one, then the closing `>`) the tag body consumes, or
`none` when the pattern cannot match here. -/
def spanToGt (r : List Char) : Option Nat :=
  let run := r.takeWhile (fun c => c != '>')
  if run.length = 0 then none
  else
    match r.drop run.length with
    | '>' :: _ => some (run.length + 1)
    | _ => none

/-- Model of `re.sub(r"<[^>]+>", " ", text)` (code_parser.py line 32):
each markup tag is replaced by a single space.  Fuel is instantiated with
the input length. -/
def stripTagsF : Nat → List Char → List Char
  | 0, s => s
  | _ + 1, [] => []
  | f + 1, c :: rest =>
    if c = '<' then
      match spanToGt rest with
      | some k => ' ' :: stripTagsF f (rest.drop k)
      | none => c :: stripTagsF f rest
    else
      c :: stripTagsF f rest

/-- Model of `re.sub(r"<[^>]+>", " ", text)`. -/
def stripTags (s : List Char) : List Char := stripTagsF s.length s

/-- The keyword alternation `(?:CPT/?HCPCS|CPT|HCPCS)` of the primary
pattern: the possible remainders after the keyword, in regex backtracking
priority order (first alternative with the greedy `/?` preferring the
slash present). -/
def kwAlts (s : List Char) : List (List Char) :=
  (if startsWithCI "cpt/hcpcs".data s then [s.drop 9] else []) ++
  (if startsWithCI "cpthcpcs".data s then [s.drop 8] else []) ++
  (if startsWithCI "cpt".data s then [s.drop 3] else []) ++
  (if startsWithCI "hcpcs".data s then [s.drop 5] else [])

/-- The possible remainders after `\s+`, in greedy priority order (most
whitespace consumed first); empty when no whitespace follows. -/
def wsPlusAlts (s : List Char) : List (List Char) :=
  let r := (s.takeWhile isSpaceCh).length
  (List.range r).map (fun i => s.drop (r - i))

/-- The possible remainders after `codes?` (case-insensitive), in greedy
priority order for the optional `s`. -/
def afterCodeAlts (s : List Char) : List (List Char) :=
  if startsWithCI "code".data s then
    let t := s.drop 4
    match t with
    | c :: rest => if eqCI 's' c then [rest, t] else [t]
    | [] => [t]
  else []

/-- First defined value in a list of options, the backtracking priority
choice. -/
def firstSome {α : Type} : List (Option α) → Option α
  | [] => none
  | some a :: _ => some a
  | none :: rest => firstSome rest

/-- The word part of the terminator
`(?:is|are|when|for|if|,\s*(?:CPT|HCPCS))` (case-insensitive, ordered
alternation), applied after the `\s+`; returns the remainder after the
terminator. -/
def termWordAt (s : List Char) : Option (List Char) :=
  if startsWithCI "is".data s then some (s.drop 2)
  else if startsWithCI "are".data s then some (s.drop 3)
  else if startsWithCI "when".data s then some (s.drop 4)
  else if startsWithCI "for".data s then some (s.drop 3)
  else if startsWithCI "if".data s then some (s.drop 2)
  else
    match s with
    | ',' :: rest =>
      let r2 := rest.dropWhile isSpaceCh
      if startsWithCI "cpt".data r2 then some (r2.drop 3)
      else if startsWithCI "hcpcs".data r2 then some (r2.drop 5)
      else none
    | _ => none

/-- The full terminator `(?:\s+(?:is|are|when|for|if|,\s*(?:CPT|HCPCS))|[.;:\(]|$)`
of the primary pattern, with its three alternatives in regex order;
returns the remainder after the terminator. -/
def termAlt (s : List Char) : Option (List Char) :=
  match firstSome ((wsPlusAlts s).map termWordAt) with
  | some r => some r
  | none =>
    match s with
    | c :: rest => if c = '.' ∨ c = ';' ∨ c = ':' ∨ c = '(' then some rest else none
    | [] => some []

/-- A character of the captured code-list class (word characters, digits, comma, whitespace, hyphen, slash; the literal letters of the class are word characters already). -/
def isClassCh (c : Char) : Bool :=
  isWordCh c || c == ',' || isSpaceCh c || c == '-' || c == '/'

/-- The lazy capture group of the primary pattern followed by the terminator:
after having captured `acc` (reversed), first try the terminator, then
extend the capture by one class character, as a lazy quantifier does.
Returns the captured group and the remainder after the whole match. -/
def captureLoop : List Char → List Char → Option (List Char × List Char)
  | acc, rest =>
    match termAlt rest with
    | some rest2 => some (acc.reverse, rest2)
    | none =>
      match rest with
      | c :: rest2 => if isClassCh c then captureLoop (c :: acc) rest2 else none
      | [] => none

/-- Start of the lazy capture: it must take at least one class character
before the terminator is first tried. -/
def captureFrom (s : List Char) : Option (List Char × List Char) :=
  match s with
  | c :: rest => if isClassCh c then captureLoop [c] rest else none
  | [] => none

/-- Attempt of the full primary pattern
`(?:CPT/?HCPCS|CPT|HCPCS)` then `\s+codes?\s+`, the lazy capture and the terminator, at the
current position, with backtracking alternatives tried in regex priority
order (rightmost varying fastest).  Returns the captured group and the
remainder after the match. -/
def tryPrimaryAt (s : List Char) : Option (List Char × List Char) :=
  firstSome ((kwAlts s).map (fun r0 =>
    firstSome ((wsPlusAlts r0).map (fun r1 =>
      firstSome ((afterCodeAlts r1).map (fun r2 =>
        firstSome ((wsPlusAlts r2).map captureFrom)))))))

/-- Model of `re.finditer` for the primary pattern (code_parser.py lines
37-40): scan left to right, at each position try the pattern; on a match
collect the captured group and resume after the match.  Fuel is
instantiated with the input length (a match always consumes at least the
keyword, so at least one character). -/
def findPrimaryF : Nat → List Char → List (List Char)
  | 0, _ => []
  | f + 1, s =>
    match s with
    | [] => []
    | _ :: rest =>
      match tryPrimaryAt s with
      | some (cap, after) => cap :: findPrimaryF f after
      | none => findPrimaryF f rest

/-- All captured code-list phrases of the primary pattern, in match order. -/
def findPrimary (s : List Char) : List (List Char) := findPrimaryF s.length s

/-- Model of `re.finditer(r"\b([A-Z]\d{4})\b", text)` together with the
in-loop deduplication `if code not in codes` (code_parser.py lines 44-49).
`prev` is the character before the current position, for the left `\b`.
Fuel is instantiated with the input length. -/
def jcodeScanF : Nat → Option Char → List Char → List String → List String
  | 0, _, _, acc => acc
  | _ + 1, _, [], acc => acc
  | f + 1, prev, c :: rest, acc =>
    match rest with
    | d1 :: d2 :: d3 :: d4 :: rest4 =>
      if boundaryPrev prev && isUpperAZ c && isDigitCh d1 && isDigitCh d2 &&
         isDigitCh d3 && isDigitCh d4 && noWordAhead rest4 then
        let code : String := ⟨[c, d1, d2, d3, d4]⟩
        jcodeScanF f (some d4) rest4 (if code ∈ acc then acc else acc ++ [code])
      else jcodeScanF f (some c) rest acc
    | _ => jcodeScanF f (some c) rest acc

/-- The J-code fallback scan over the normalized, tag-stripped text. -/
def jcodeScan (s : List Char) : List String := jcodeScanF s.length none s []

/-- Embedding of `extract_cpt_codes_from_paragraph` (code_parser.py lines
17-51): empty input gives `[]`; otherwise unescape, strip tags, collect
the primary-pattern captures and parse each stripped capture as a code
list; when that yields no codes at all, fall back to the bare
letter-plus-4-digits scan. -/
def extract_cpt_codes_from_paragraph (paragraph_html : String) : List String :=
  if paragraph_html = "" then []
  else
    let text := stripTags (unescape_html paragraph_html).data
    let codes := (findPrimary text).foldl
      (fun acc cap => acc ++ parse_code_list ⟨pyStrip cap⟩) []
    if codes.isEmpty then jcodeScan text else codes

/-- Input procedure record (article sub-endpoint shape, §6 of the data
contract): every field may be missing. -/
structure HcpcRecord where
  hcpc_code_id : Option String := none
  long_description : Option String := none
  short_description : Option String := none
  hcpc_code_group : Option String := none
deriving DecidableEq

/-- Input diagnosis record: every field may be missing. -/
structure Icd10Record where
  icd10_code_id : Option String := none
  description : Option String := none
  asterisk : Option String := none
  icd10_covered_group : Option Int := none
deriving DecidableEq

/-- Input coverage-group record: every field may be missing. -/
structure GroupRecord where
  icd10_covered_group : Option Int := none
  paragraph : Option String := none
deriving DecidableEq

/-- Value stored in the procedure index `hcpc_by_id`
(code_parser.py lines 124-128). -/
structure HcpcEntry where
  code : String
  description : String
  group : Option String
deriving DecidableEq

/-- Diagnosis entry stored in the group index and in the output lists
(code_parser.py lines 134-138). -/
structure IcdEntry where
  code : String
  description : String
  asterisk : String
deriving DecidableEq

/-- Entry of the `by_cpt` output view (code_parser.py lines 179-183). -/
structure CptEntry where
  code : String
  description : String
  icd10_codes : List IcdEntry
deriving DecidableEq

/-- Entry of the output `groups` list (code_parser.py lines 153-158). -/
structure GroupOut where
  group_num : Option Int
  paragraph : String
  cpt_codes : List String
  icd10_codes : List IcdEntry
deriving DecidableEq

/-- Result of `build_cpt_icd10_mapping`. -/
structure ForwardMapping where
  by_cpt : List (String × CptEntry)
  groups : List GroupOut
  hcpc_codes : List (String × HcpcEntry)
deriving DecidableEq

/-- Procedure reference stored in the reverse mapping
(code_parser.py lines 214-217). -/
structure CptRef where
  code : String
  description : String
deriving DecidableEq

/-- Entry of the reverse mapping, keyed by diagnosis code
(code_parser.py lines 208-212). -/
structure RevEntry where
  code : String
  description : String
  cpt_codes : List CptRef
deriving DecidableEq

/-- First-match lookup in an insertion-ordered association list, the model
of Python `dict` indexing / `dict.get`. -/
def lookupA {κ α : Type} [DecidableEq κ] : List (κ × α) → κ → Option α
  | [], _ => none
  | (k1, v) :: rest, k => if k1 = k then some v else lookupA rest k

/-- Model of `d[k] = v` on a Python dict: overwrite the value at an
existing key in place, else append the new key at the end. -/
def assocSet {κ α : Type} [DecidableEq κ] : List (κ × α) → κ → α → List (κ × α)
  | [], k, v => [(k, v)]
  | (k1, v1) :: rest, k, v =>
    if k1 = k then (k, v) :: rest else (k1, v1) :: assocSet rest k v

/-- Model of `d.setdefault(k, []).extend(v)` on a Python dict of lists:
extend the list at an existing key in place, else append `(k, v)`. -/
def sdExtend {κ α : Type} [DecidableEq κ] (k : κ) (v : List α) :
    List (κ × List α) → List (κ × List α)
  | [] => [(k, v)]
  | (k1, l) :: rest =>
    if k1 = k then (k1, l ++ v) :: rest else (k1, l) :: sdExtend k v rest

/-- Description resolution for a procedure record
(`h.get("long_description") or h.get("short_description", "")`, line 126);
note that Python `or` also skips an empty `long_description`. -/
def descOf (h : HcpcRecord) : String :=
  match h.long_description with
  | some s => if s = "" then h.short_description.getD "" else s
  | none => h.short_description.getD ""

/-- Embedding of the procedure index loop (code_parser.py lines 119-128):
records whose stripped `hcpc_code_id` is empty are skipped. -/
def hcpcById (hcpc_codes : List HcpcRecord) : List (String × HcpcEntry) :=
  hcpc_codes.foldl
    (fun m h =>
      let cid := pyStripS (h.hcpc_code_id.getD "")
      if cid = "" then m
      else assocSet m cid ⟨cid, descOf h, h.hcpc_code_group⟩)
    []

/-- The diagnosis entry built from a record (code_parser.py lines 134-138). -/
def icdEntryOf (r : Icd10Record) : IcdEntry :=
  ⟨pyStripS (r.icd10_code_id.getD ""), r.description.getD "", r.asterisk.getD ""⟩

/-- Embedding of the diagnosis group index loop (code_parser.py lines
131-140): records with no group id are dropped. -/
def icd10ByGroup (icd10_covered : List Icd10Record) : List (Int × List IcdEntry) :=
  icd10_covered.foldl
    (fun m r =>
      match r.icd10_covered_group with
      | none => m
      | some g => sdExtend g [icdEntryOf r] m)
    []

/-- Diagnosis codes of one coverage group
(`icd10_by_group.get(grp_num, [])`, line 151; a missing group id never
indexes anything). -/
def groupIcds (idx : List (Int × List IcdEntry)) (g : GroupRecord) : List IcdEntry :=
  match g.icd10_covered_group with
  | none => []
  | some n => (lookupA idx n).getD []

/-- The `groups` output entry for one coverage group (code_parser.py lines
153-158). -/
def groupOut (idx : List (Int × List IcdEntry)) (g : GroupRecord) : GroupOut :=
  ⟨g.icd10_covered_group,
   unescape_html (g.paragraph.getD ""),
   extract_cpt_codes_from_paragraph (g.paragraph.getD ""),
   groupIcds idx g⟩

/-- The association step for one coverage group (code_parser.py lines
160-166): extend each extracted code with the group diagnosis list, or,
when extraction is empty, extend every known procedure code id.  The
Python source iterates `all_hcpc_ids`, a `set`, whose iteration order is
unspecified; the embedding fixes the insertion order of the procedure
index (all properties proved below are insensitive to that order). -/
def assocStep (allIds : List String) (idx : List (Int × List IcdEntry))
    (m : List (String × List IcdEntry)) (g : GroupRecord) :
    List (String × List IcdEntry) :=
  let extracted := extract_cpt_codes_from_paragraph (g.paragraph.getD "")
  let il := groupIcds idx g
  if extracted.isEmpty then allIds.foldl (fun m1 k => sdExtend k il m1) m
  else extracted.foldl (fun m1 k => sdExtend k il m1) m

/-- The accumulated procedure-to-diagnosis association map `cpt_to_icd10`
(code_parser.py lines 145-166). -/
def cptToIcd (allIds : List String) (idx : List (Int × List IcdEntry))
    (grps : List GroupRecord) : List (String × List IcdEntry) :=
  grps.foldl (assocStep allIds idx) []

/-- The in-loop deduplication of `build_cpt_icd10_mapping` (lines 172-177):
keep each diagnosis code once, first occurrence first. -/
def dedupGo (seen : List String) : List IcdEntry → List IcdEntry
  | [] => []
  | e :: rest =>
    if e.code ∈ seen then dedupGo seen rest
    else e :: dedupGo (e.code :: seen) rest

/-- Deduplicate a diagnosis list by code, keeping first occurrences. -/
def dedupByCode (l : List IcdEntry) : List IcdEntry := dedupGo [] l

/-- The `by_cpt` compaction (code_parser.py lines 168-183): one entry per
accumulated key, diagnosis list deduplicated, description resolved from
the procedure index with `""` as default. -/
def byCpt (hIdx : List (String × HcpcEntry)) (m : List (String × List IcdEntry)) :
    List (String × CptEntry) :=
  m.map (fun p =>
    (p.1, ⟨p.1, ((lookupA hIdx p.1).map HcpcEntry.description).getD "", dedupByCode p.2⟩))

/-- Embedding of `build_cpt_icd10_mapping` (code_parser.py lines 92-189).
The single Python loop over the coverage groups both appends to `groups`
and updates `cpt_to_icd10`; the two accumulators are independent, so the
embedding builds them by a map and a fold over the same list. -/
def build_cpt_icd10_mapping (hcpc_codes : List HcpcRecord)
    (icd10_covered : List Icd10Record) (icd10_covered_groups : List GroupRecord) :
    ForwardMapping :=
  let hIdx := hcpcById hcpc_codes
  let idx := icd10ByGroup icd10_covered
  let allIds := hIdx.map Prod.fst
  ⟨byCpt hIdx (cptToIcd allIds idx icd10_covered_groups),
   icd10_covered_groups.map (groupOut idx),
   hIdx⟩

/-- Append a procedure reference to the first entry with the given
diagnosis code, unless a reference with the same procedure code is already
present (code_parser.py lines 213-217). -/
def revAppendCpt (cpt cptDesc icdCode : String) :
    List (String × RevEntry) → List (String × RevEntry)
  | [] => []
  | (k, e) :: rest =>
    if k = icdCode then
      if cpt ∈ e.cpt_codes.map CptRef.code then (k, e) :: rest
      else (k, ⟨e.code, e.description, e.cpt_codes ++ [⟨cpt, cptDesc⟩]⟩) :: rest
    else (k, e) :: revAppendCpt cpt cptDesc icdCode rest

/-- One step of the reverse builder for a single (procedure, diagnosis)
pair (code_parser.py lines 205-217): create the diagnosis entry on first
sight, then append the procedure reference if new. -/
def revAdd (cpt cptDesc : String) (rev : List (String × RevEntry)) (icd : IcdEntry) :
    List (String × RevEntry) :=
  let rev1 :=
    if (lookupA rev icd.code).isSome then rev
    else rev ++ [(icd.code, ⟨icd.code, icd.description, []⟩)]
  revAppendCpt cpt cptDesc icd.code rev1

/-- Embedding of `build_icd10_to_cpt_mapping` (code_parser.py lines
192-219). -/
def build_icd10_to_cpt_mapping (hcpc_codes : List HcpcRecord)
    (icd10_covered : List Icd10Record) (icd10_covered_groups : List GroupRecord) :
    List (String × RevEntry) :=
  let forward := build_cpt_icd10_mapping hcpc_codes icd10_covered icd10_covered_groups
  forward.by_cpt.foldl
    (fun rev p => p.2.icd10_codes.foldl (revAdd p.1 p.2.description) rev)
    []

/-! ### Character-class facts -/

lemma isDigitCh_iff {c : Char} : isDigitCh c = true ↔ 48 ≤ c.toNat ∧ c.toNat ≤ 57 := by
  simp [isDigitCh]

lemma isUpperAZ_iff {c : Char} : isUpperAZ c = true ↔ 65 ≤ c.toNat ∧ c.toNat ≤ 90 := by
  simp [isUpperAZ]

lemma not_space_of_digit {c : Char} (h : isDigitCh c = true) : isSpaceCh c = false := by
  rw [isDigitCh_iff] at h
  simp [isSpaceCh]
  omega

lemma not_sep_of_digit {c : Char} (h : isDigitCh c = true) : isSepCh c = false := by
  rw [isDigitCh_iff] at h
  simp [isSepCh]
  omega

lemma not_digit_of_upper {c : Char} (h : isUpperAZ c = true) : isDigitCh c = false := by
  rw [isUpperAZ_iff] at h
  simp [isDigitCh]
  omega

lemma not_space_of_upper {c : Char} (h : isUpperAZ c = true) : isSpaceCh c = false := by
  rw [isUpperAZ_iff] at h
  simp [isSpaceCh]
  omega

lemma not_sep_of_upper {c : Char} (h : isUpperAZ c = true) : isSepCh c = false := by
  rw [isUpperAZ_iff] at h
  simp [isSepCh]
  omega

lemma eqCI_a_of_digit {c : Char} (h : isDigitCh c = true) : eqCI 'a' c = false := by
  rw [isDigitCh_iff] at h
  have ha : ('a').toNat = 97 := rfl
  simp [eqCI, ha]
  omega

lemma eqCI_n_of_digit {c : Char} (h : isDigitCh c = true) : eqCI 'n' c = false := by
  rw [isDigitCh_iff] at h
  have hn : ('n').toNat = 110 := rfl
  simp [eqCI, hn]
  omega

lemma eqCI_a_dash : eqCI 'a' '-' = false := by decide

/-! ### takeWhile / dropWhile helpers -/

lemma takeWhile_append_of_all {p : Char → Bool} {l : List Char} (x : Char) (r : List Char)
    (hl : ∀ c ∈ l, p c = true) (hx : p x = false) :
    (l ++ x :: r).takeWhile p = l := by
  induction l with
  | nil => simp [List.takeWhile_cons, hx]
  | cons a t ih =>
    have ha : p a = true := hl a (by simp)
    simp only [List.cons_append, List.takeWhile_cons, ha, if_true]
    rw [ih (fun c hc => hl c (by simp [hc]))]

lemma dropWhile_append_of_all {p : Char → Bool} {l : List Char} (x : Char) (r : List Char)
    (hl : ∀ c ∈ l, p c = true) (hx : p x = false) :
    (l ++ x :: r).dropWhile p = x :: r := by
  induction l with
  | nil => simp [List.dropWhile_cons, hx]
  | cons a t ih =>
    have ha : p a = true := hl a (by simp)
    simp only [List.cons_append, List.dropWhile_cons, ha, if_true]
    exact ih (fun c hc => hl c (by simp [hc]))

lemma takeWhile_of_all {p : Char → Bool} {l : List Char} (hl : ∀ c ∈ l, p c = true) :
    l.takeWhile p = l := by
  induction l with
  | nil => rfl
  | cons a t ih =>
    have ha : p a = true := hl a (by simp)
    simp only [List.takeWhile_cons, ha, if_true]
    rw [ih (fun c hc => hl c (by simp [hc]))]

lemma dropWhile_of_all {p : Char → Bool} {l : List Char} (hl : ∀ c ∈ l, p c = true) :
    l.dropWhile p = [] := by
  induction l with
  | nil => rfl
  | cons a t ih =>
    have ha : p a = true := hl a (by simp)
    simp only [List.dropWhile_cons, ha, if_true]
    exact ih (fun c hc => hl c (by simp [hc]))

lemma dropWhile_of_all_false {p : Char → Bool} {l : List Char}
    (hl : ∀ c ∈ l, p c = false) : l.dropWhile p = l := by
  cases l with
  | nil => rfl
  | cons a t => simp [List.dropWhile_cons, hl a (by simp)]

lemma pyStrip_of_no_space {l : List Char} (hl : ∀ c ∈ l, isSpaceCh c = false) :
    pyStrip l = l := by
  unfold pyStrip
  rw [dropWhile_of_all_false hl,
      dropWhile_of_all_false (fun c hc => hl c (List.mem_reverse.mp hc)),
      List.reverse_reverse]

/-! ### Identity lemmas for the token-level passes -/

lemma isAndAt_false_of_head {prev : Option Char} {c : Char} {rest : List Char}
    (h : eqCI 'a' c = false) : isAndAt prev (c :: rest) = false := by
  match rest with
  | [] => rfl
  | [_] => rfl
  | n :: d :: r => simp [isAndAt, h]

lemma isAndAt_false_of_second {prev : Option Char} {c n : Char} {rest : List Char}
    (h : eqCI 'n' n = false) : isAndAt prev (c :: n :: rest) = false := by
  match rest with
  | [] => rfl
  | d :: r => simp [isAndAt, h]

lemma subAndF_id_of_no_a {s : List Char} (hs : ∀ c ∈ s, eqCI 'a' c = false) :
    ∀ (f : Nat) (prev : Option Char), subAndF f prev s = s := by
  induction s with
  | nil => intro f prev; cases f <;> rfl
  | cons c rest ih =>
    intro f prev
    cases f with
    | zero => rfl
    | succ f =>
      rw [subAndF, isAndAt_false_of_head (hs c (by simp)), if_neg (by simp),
          ih (fun x hx => hs x (by simp [hx]))]

lemma subAndF_id_digits_tail {c2 : Char} {s2 : List Char}
    (h2 : ∀ c ∈ s2, isDigitCh c = true) :
    ∀ (ds : List Char), (∀ c ∈ ds, isDigitCh c = true) →
      ∀ (f : Nat) (prev : Option Char),
        subAndF f prev (ds ++ '-' :: c2 :: s2) = ds ++ '-' :: c2 :: s2 := by
  intro ds
  induction ds with
  | nil =>
    intro _ f prev
    simp only [List.nil_append]
    cases f with
    | zero => rfl
    | succ f =>
      rw [subAndF, isAndAt_false_of_head eqCI_a_dash, if_neg (by simp)]
      cases f with
      | zero => rfl
      | succ f =>
        cases s2 with
        | nil => cases f <;> rfl
        | cons b bs =>
          rw [subAndF, isAndAt_false_of_second (eqCI_n_of_digit (h2 b (by simp))),
              if_neg (by simp),
              subAndF_id_of_no_a (fun x hx => eqCI_a_of_digit (h2 x hx)) _ _]
  | cons d ds ih =>
    intro hds f prev
    cases f with
    | zero => rfl
    | succ f =>
      rw [List.cons_append, subAndF,
          isAndAt_false_of_head (eqCI_a_of_digit (hds d (by simp))), if_neg (by simp),
          ih (fun x hx => hds x (by simp [hx])) f (some d)]

lemma splitCSF_of_no_sep {s : List Char} (hs : ∀ c ∈ s, isSepCh c = false) :
    ∀ (f : Nat) (acc : List Char), s.length ≤ f →
      splitCSF f acc s = [acc.reverse ++ s] := by
  induction s with
  | nil => intro f acc _; cases f <;> simp [splitCSF]
  | cons c rest ih =>
    intro f acc hf
    cases f with
    | zero => simp at hf
    | succ f =>
      rw [splitCSF, if_neg (by simp [hs c (by simp)])]
      rw [ih (fun x hx => hs x (by simp [hx])) f (c :: acc) (by simpa using hf)]
      simp

/-! ### The numeric and alpha range matchers on well-formed tokens -/

lemma matchNumRange_on_range {s1 s2 : List Char}
    (h1 : ∀ c ∈ s1, isDigitCh c = true) (l1 : 4 ≤ s1.length) (l1b : s1.length ≤ 5)
    (h2 : ∀ c ∈ s2, isDigitCh c = true) (l2 : 4 ≤ s2.length) (l2b : s2.length ≤ 5) :
    matchNumRange (s1 ++ '-' :: s2) = some (digitsVal s1, digitsVal s2) := by
  have e1 : (s1 ++ '-' :: s2).takeWhile isDigitCh = s1 :=
    takeWhile_append_of_all '-' s2 h1 (by decide)
  have e2 : (s1 ++ '-' :: s2).dropWhile isDigitCh = '-' :: s2 :=
    dropWhile_append_of_all '-' s2 h1 (by decide)
  have e3 : ('-' :: s2).dropWhile isSpaceCh = '-' :: s2 := by
    refine dropWhile_of_all_false ?_
    intro c hc
    rcases List.mem_cons.mp hc with rfl | hc
    · decide
    · exact not_space_of_digit (h2 c hc)
  have e4 : s2.dropWhile isSpaceCh = s2 :=
    dropWhile_of_all_false (fun c hc => not_space_of_digit (h2 c hc))
  have e5 : s2.takeWhile isDigitCh = s2 := takeWhile_of_all h2
  have e6 : s2.dropWhile isDigitCh = [] := dropWhile_of_all h2
  unfold matchNumRange
  simp only [e1, e2, e3, e4, e5, e6]
  rw [if_pos ⟨l1, l1b⟩]
  simp [l2, l2b]

lemma matchNumRange_none_of_upper {c1 : Char} {rest : List Char}
    (h : isUpperAZ c1 = true) : matchNumRange (c1 :: rest) = none := by
  have h0 : isDigitCh c1 = false := not_digit_of_upper h
  unfold matchNumRange
  simp [List.takeWhile_cons, h0]

lemma matchAlphaRange_on_range {c1 c2 : Char} {s1 s2 : List Char}
    (hc1 : isUpperAZ c1 = true) (hc2 : isUpperAZ c2 = true)
    (h1 : ∀ c ∈ s1, isDigitCh c = true) (l1 : s1.length = 4)
    (h2 : ∀ c ∈ s2, isDigitCh c = true) (l2 : s2.length = 4) :
    matchAlphaRange (c1 :: (s1 ++ '-' :: c2 :: s2)) =
      some (c1, digitsVal s1, c2, digitsVal s2) := by
  have e1 : (s1 ++ '-' :: c2 :: s2).takeWhile isDigitCh = s1 :=
    takeWhile_append_of_all '-' (c2 :: s2) h1 (by decide)
  have e2 : (s1 ++ '-' :: c2 :: s2).dropWhile isDigitCh = '-' :: c2 :: s2 :=
    dropWhile_append_of_all '-' (c2 :: s2) h1 (by decide)
  have e3 : ('-' :: c2 :: s2).dropWhile isSpaceCh = '-' :: c2 :: s2 := by
    refine dropWhile_of_all_false ?_
    intro c hc
    rcases List.mem_cons.mp hc with rfl | hc
    · decide
    rcases List.mem_cons.mp hc with rfl | hc
    · exact not_space_of_upper hc2
    · exact not_space_of_digit (h2 c hc)
  have e4 : (c2 :: s2).dropWhile isSpaceCh = c2 :: s2 := by
    refine dropWhile_of_all_false ?_
    intro c hc
    rcases List.mem_cons.mp hc with rfl | hc
    · exact not_space_of_upper hc2
    · exact not_space_of_digit (h2 c hc)
  have e5 : s2.takeWhile isDigitCh = s2 := takeWhile_of_all h2
  have e6 : s2.dropWhile isDigitCh = [] := dropWhile_of_all h2
  unfold matchAlphaRange
  simp only [e1, e2, e3, e4, e5, e6]
  rw [if_pos hc1, if_pos l1]
  simp [hc2, l2]

lemma matchSingle_none_of_dash {c1 : Char} {l r : List Char}
    (hc1 : isUpperAZ c1 = true) :
    matchSingle (c1 :: (l ++ '-' :: r)) = none := by
  rw [matchSingle, if_pos hc1, if_neg]
  intro hcond
  have hall := hcond.1
  rw [List.all_eq_true] at hall
  have := hall '-' (by simp)
  simp [isDigitCh] at this

/-! ### The token loop on range tokens -/

lemma subAnd_id_of_no_a {s : List Char} (hs : ∀ c ∈ s, eqCI 'a' c = false) :
    subAnd s = s := subAndF_id_of_no_a hs _ _

lemma splitCS_of_no_sep {s : List Char} (hs : ∀ c ∈ s, isSepCh c = false) :
    splitCS s = [s] := by
  unfold splitCS
  rw [splitCSF_of_no_sep hs _ _ le_rfl]
  simp

lemma parsePart_numeric (acc : List String) {s1 s2 : List Char}
    (h1 : ∀ c ∈ s1, isDigitCh c = true) (l1 : 4 ≤ s1.length) (l1b : s1.length ≤ 5)
    (h2 : ∀ c ∈ s2, isDigitCh c = true) (l2 : 4 ≤ s2.length) (l2b : s2.length ≤ 5) :
    parsePart acc (s1 ++ '-' :: s2) =
      if digitsVal s2 - digitsVal s1 ≤ 500
      then acc ++ (List.range' (digitsVal s1) (digitsVal s2 + 1 - digitsVal s1)).map pyStr
      else acc := by
  have hst : pyStrip (s1 ++ '-' :: s2) = s1 ++ '-' :: s2 := by
    refine pyStrip_of_no_space ?_
    intro c hc
    rcases List.mem_append.mp hc with hc | hc
    · exact not_space_of_digit (h1 c hc)
    rcases List.mem_cons.mp hc with rfl | hc
    · decide
    · exact not_space_of_digit (h2 c hc)
  unfold parsePart
  simp only [hst, matchNumRange_on_range h1 l1 l1b h2 l2 l2b]
  rw [if_neg (by simp)]

lemma subAnd_alpha_token {c1 c2 : Char} {s1 s2 : List Char}
    (h1 : ∀ c ∈ s1, isDigitCh c = true) (hs1 : s1 ≠ [])
    (h2 : ∀ c ∈ s2, isDigitCh c = true) :
    subAnd (c1 :: (s1 ++ '-' :: c2 :: s2)) = c1 :: (s1 ++ '-' :: c2 :: s2) := by
  cases s1 with
  | nil => exact absurd rfl hs1
  | cons d s1t =>
    show subAndF _ none _ = _
    generalize (c1 :: ((d :: s1t) ++ '-' :: c2 :: s2)).length = f
    cases f with
    | zero => rfl
    | succ f =>
      rw [List.cons_append, subAndF,
          isAndAt_false_of_second (eqCI_n_of_digit (h1 d (by simp))), if_neg (by simp),
          ← List.cons_append,
          subAndF_id_digits_tail h2 (d :: s1t) h1 f (some c1)]

lemma parsePart_alpha (acc : List String) {c1 c2 : Char} {s1 s2 : List Char}
    (hc1 : isUpperAZ c1 = true) (hc2 : isUpperAZ c2 = true)
    (h1 : ∀ c ∈ s1, isDigitCh c = true) (l1 : s1.length = 4)
    (h2 : ∀ c ∈ s2, isDigitCh c = true) (l2 : s2.length = 4) :
    parsePart acc (c1 :: (s1 ++ '-' :: c2 :: s2)) =
      if c1 = c2 then
        if digitsVal s2 - digitsVal s1 ≤ 500
        then acc ++ (List.range' (digitsVal s1) (digitsVal s2 + 1 - digitsVal s1)).map
          (fun n => String.mk (c1 :: pad4 n))
        else acc
      else acc := by
  have hst : pyStrip (c1 :: (s1 ++ '-' :: c2 :: s2)) = c1 :: (s1 ++ '-' :: c2 :: s2) := by
    refine pyStrip_of_no_space ?_
    intro c hc
    rcases List.mem_cons.mp hc with rfl | hc
    · exact not_space_of_upper hc1
    rcases List.mem_append.mp hc with hc | hc
    · exact not_space_of_digit (h1 c hc)
    rcases List.mem_cons.mp hc with rfl | hc
    · decide
    rcases List.mem_cons.mp hc with rfl | hc
    · exact not_space_of_upper hc2
    · exact not_space_of_digit (h2 c hc)
  unfold parsePart
  simp only [hst, matchNumRange_none_of_upper hc1, matchAlphaRange_on_range hc1 hc2 h1 l1 h2 l2]
  rw [if_neg (by simp)]
  by_cases hcc : c1 = c2
  · rw [if_pos hcc, if_pos hcc]
  · rw [if_neg hcc, if_neg hcc]
    unfold singleResult
    rw [matchSingle_none_of_dash hc1]

/-- Claim C2: a numeric range token with 4-5 digit endpoints, parsed from a
matched code-list phrase, expands to every integer from start to end
inclusive in ascending order when the span is at most 500, and yields no
codes at all when the span exceeds 500 (the whole range is discarded,
never truncated). -/
theorem c2_numeric_range_expansion (s1 s2 : List Char)
    (h1 : ∀ c ∈ s1, isDigitCh c = true) (l1 : 4 ≤ s1.length) (l1b : s1.length ≤ 5)
    (h2 : ∀ c ∈ s2, isDigitCh c = true) (l2 : 4 ≤ s2.length) (l2b : s2.length ≤ 5) :
    parse_code_list ⟨s1 ++ '-' :: s2⟩ =
      if digitsVal s2 - digitsVal s1 ≤ 500
      then (List.range' (digitsVal s1) (digitsVal s2 + 1 - digitsVal s1)).map pyStr
      else [] := by
  have hsub : subAnd (s1 ++ '-' :: s2) = s1 ++ '-' :: s2 := by
    refine subAnd_id_of_no_a ?_
    intro c hc
    rcases List.mem_append.mp hc with hc | hc
    · exact eqCI_a_of_digit (h1 c hc)
    rcases List.mem_cons.mp hc with rfl | hc
    · exact eqCI_a_dash
    · exact eqCI_a_of_digit (h2 c hc)
  have hsplit : splitCS (s1 ++ '-' :: s2) = [s1 ++ '-' :: s2] := by
    refine splitCS_of_no_sep ?_
    intro c hc
    rcases List.mem_append.mp hc with hc | hc
    · exact not_sep_of_digit (h1 c hc)
    rcases List.mem_cons.mp hc with rfl | hc
    · decide
    · exact not_sep_of_digit (h2 c hc)
  unfold parse_code_list
  have hd : (⟨s1 ++ '-' :: s2⟩ : String).data = s1 ++ '-' :: s2 := rfl
  rw [hd, hsub, hsplit, List.foldl_cons, List.foldl_nil,
      parsePart_numeric [] h1 l1 l1b h2 l2 l2b]
  by_cases hc : digitsVal s2 - digitsVal s1 ≤ 500
  · rw [if_pos hc, if_pos hc, List.nil_append]
  · rw [if_neg hc, if_neg hc]

/-- Witness for C2: the range token of the specification example expands
to the six consecutive codes, and an over-wide range is discarded whole. -/
theorem c2_numeric_range_expansion_witness :
    parse_code_list "81162-81167" = ["81162", "81163", "81164", "81165", "81166", "81167"] ∧
    parse_code_list "10000-99999" = [] := by
  constructor
  · have h := c2_numeric_range_expansion ['8', '1', '1', '6', '2'] ['8', '1', '1', '6', '7']
      (by decide) (by decide) (by decide) (by decide) (by decide) (by decide)
    exact h.trans (by decide)
  · have h := c2_numeric_range_expansion ['1', '0', '0', '0', '0'] ['9', '9', '9', '9', '9']
      (by decide) (by decide) (by decide) (by decide) (by decide) (by decide)
    exact h.trans (by decide)

/-- Claim C3: a letter-prefixed range token whose endpoints carry the same
single uppercase letter and exactly four digits expands, when the numeric
span is at most 500, to every code from start to end inclusive with the
digits zero-padded to width 4; when the two letter prefixes differ the
token yields no codes. -/
theorem c3_alpha_range_expansion (c1 c2 : Char) (s1 s2 : List Char)
    (hc1 : isUpperAZ c1 = true) (hc2 : isUpperAZ c2 = true)
    (h1 : ∀ c ∈ s1, isDigitCh c = true) (l1 : s1.length = 4)
    (h2 : ∀ c ∈ s2, isDigitCh c = true) (l2 : s2.length = 4) :
    parse_code_list ⟨c1 :: (s1 ++ '-' :: c2 :: s2)⟩ =
      if c1 = c2 then
        if digitsVal s2 - digitsVal s1 ≤ 500
        then (List.range' (digitsVal s1) (digitsVal s2 + 1 - digitsVal s1)).map
          (fun n => String.mk (c1 :: pad4 n))
        else []
      else [] := by
  have hsub : subAnd (c1 :: (s1 ++ '-' :: c2 :: s2)) = c1 :: (s1 ++ '-' :: c2 :: s2) :=
    subAnd_alpha_token h1 (by intro h; rw [h] at l1; simp at l1) h2
  have hsplit : splitCS (c1 :: (s1 ++ '-' :: c2 :: s2)) = [c1 :: (s1 ++ '-' :: c2 :: s2)] := by
    refine splitCS_of_no_sep ?_
    intro c hc
    rcases List.mem_cons.mp hc with rfl | hc
    · exact not_sep_of_upper hc1
    rcases List.mem_append.mp hc with hc | hc
    · exact not_sep_of_digit (h1 c hc)
    rcases List.mem_cons.mp hc with rfl | hc
    · decide
    rcases List.mem_cons.mp hc with rfl | hc
    · exact not_sep_of_upper hc2
    · exact not_sep_of_digit (h2 c hc)
  unfold parse_code_list
  have hd : (⟨c1 :: (s1 ++ '-' :: c2 :: s2)⟩ : String).data = c1 :: (s1 ++ '-' :: c2 :: s2) := rfl
  rw [hd, hsub, hsplit, List.foldl_cons, List.foldl_nil,
      parsePart_alpha [] hc1 hc2 h1 l1 h2 l2]
  by_cases hcc : c1 = c2
  · rw [if_pos hcc, if_pos hcc]
    by_cases hs : digitsVal s2 - digitsVal s1 ≤ 500
    · rw [if_pos hs, if_pos hs, List.nil_append]
    · rw [if_neg hs, if_neg hs]
  · rw [if_neg hcc, if_neg hcc]

/-- Witness for C3: the alpha range of the specification example expands
with its shared prefix, and the mismatched-prefix token yields nothing. -/
theorem c3_alpha_range_expansion_witness :
    parse_code_list "J9271-J9275" = ["J9271", "J9272", "J9273", "J9274", "J9275"] ∧
    parse_code_list "J9271-K9275" = [] := by
  constructor
  · have h := c3_alpha_range_expansion 'J' 'J' ['9', '2', '7', '1'] ['9', '2', '7', '5']
      (by decide) (by decide) (by decide) (by decide) (by decide) (by decide)
    exact h.trans (by decide)
  · have h := c3_alpha_range_expansion 'J' 'K' ['9', '2', '7', '1'] ['9', '2', '7', '5']
      (by decide) (by decide) (by decide) (by decide) (by decide) (by decide)
    exact h.trans (by decide)

/-! ### The Text Normalizer on ampersand-free text -/

lemma replaceFuel_id_of_no_amp {p rep s : List Char} (hs : '&' ∉ s) :
    ∀ f : Nat, replaceFuel ('&' :: p) rep f s = s := by
  induction s with
  | nil => intro f; cases f <;> rfl
  | cons c rest ih =>
    intro f
    cases f with
    | zero => rfl
    | succ f =>
      rw [replaceFuel, if_neg, ih (fun hc => hs (by simp [hc])) f]
      rintro ⟨-, hpre⟩
      simp only [List.isPrefixOf, Bool.and_eq_true, beq_iff_eq] at hpre
      exact hs (by simp [← hpre.1])

lemma replaceL_id_of_no_amp {p rep s : List Char} (hs : '&' ∉ s) :
    replaceL ('&' :: p) rep s = s := replaceFuel_id_of_no_amp hs _

lemma htmlUnescapeF_id_of_no_amp {s : List Char} (hs : '&' ∉ s) :
    ∀ f : Nat, htmlUnescapeF f s = s := by
  induction s with
  | nil => intro f; cases f <;> rfl
  | cons c rest ih =>
    intro f
    cases f with
    | zero => rfl
    | succ f =>
      rw [htmlUnescapeF, if_neg (fun hc => hs (by simp [hc])),
          ih (fun hc => hs (by simp [hc])) f]

lemma unescape_html_id_of_no_amp (y : String) (h : '&' ∉ y.data) :
    unescape_html y = y := by
  obtain ⟨l⟩ := y
  by_cases hy : (⟨l⟩ : String) = ""
  · rw [hy]; rfl
  · have hl : (⟨l⟩ : String).data = l := rfl
    rw [hl] at h
    unfold unescape_html
    rw [if_neg hy, hl,
        show ("&lt;".data) = '&' :: "lt;".data from rfl, replaceL_id_of_no_amp h,
        show ("&gt;".data) = '&' :: "gt;".data from rfl, replaceL_id_of_no_amp h,
        show ("&sol;".data) = '&' :: "sol;".data from rfl, replaceL_id_of_no_amp h,
        show ("&amp;".data) = '&' :: "amp;".data from rfl, replaceL_id_of_no_amp h,
        show ("&quot;".data) = '&' :: "quot;".data from rfl, replaceL_id_of_no_amp h]
    unfold htmlUnescapeL
    rw [htmlUnescapeF_id_of_no_amp h]

/-- Counterexample to claim C4: the Text Normalizer is not idempotent.  On
the triple-encoded ampersand the first pass yields the still-encoded
text and the second pass unescapes it further. -/
theorem c4_unescape_not_idempotent :
    unescape_html (unescape_html "&amp;amp;amp;") ≠ unescape_html "&amp;amp;amp;" := by
  decide

/-- Claim C4 (amended): the Text Normalizer is idempotent on every input
whose normalized output no longer contains an ampersand; re-running it on
such output is a no-op.  (In general a second pass can unescape further,
as the counterexample shows, because every transformation the normalizer
performs is anchored at an ampersand.) -/
theorem c4_unescape_idempotent_on_clean (x : String)
    (h : '&' ∉ (unescape_html x).data) :
    unescape_html (unescape_html x) = unescape_html x :=
  unescape_html_id_of_no_amp (unescape_html x) h

/-- Witness for the amended C4 at a concrete input. -/
theorem c4_unescape_idempotent_on_clean_witness :
    '&' ∉ (unescape_html "&lt;p&gt; text").data ∧
      unescape_html (unescape_html "&lt;p&gt; text") = unescape_html "&lt;p&gt; text" :=
  ⟨by decide, c4_unescape_idempotent_on_clean "&lt;p&gt; text" (by decide)⟩

/-! ### Association-list lemmas for the builders -/

lemma lookupA_sdExtend {κ α : Type} [DecidableEq κ] (k : κ) (v : List α)
    (m : List (κ × List α)) (k' : κ) :
    lookupA (sdExtend k v m) k' =
      if k' = k then some (((lookupA m k).getD []) ++ v) else lookupA m k' := by
  induction m with
  | nil =>
    by_cases h : k' = k
    · subst h; simp [sdExtend, lookupA]
    · simp [sdExtend, lookupA, h, Ne.symm h]
  | cons p rest ih =>
    obtain ⟨k1, l⟩ := p
    by_cases h1 : k1 = k
    · subst h1
      by_cases h2 : k' = k1
      · subst h2; simp [sdExtend, lookupA]
      · simp [sdExtend, lookupA, h2, Ne.symm h2]
    · rw [sdExtend, if_neg h1]
      by_cases h2 : k1 = k'
      · subst h2
        simp [lookupA, h1, Ne.symm h1]
      · simp [lookupA, h1, h2, ih]

lemma vals_sdExtend {κ α : Type} [DecidableEq κ] (k : κ) (v : List α)
    (m : List (κ × List α)) (k' : κ) :
    (lookupA (sdExtend k v m) k').getD [] =
      if k' = k then (lookupA m k).getD [] ++ v else (lookupA m k').getD [] := by
  rw [lookupA_sdExtend]
  by_cases h : k' = k <;> simp [h]

lemma isSome_sdExtend {κ α : Type} [DecidableEq κ] (k : κ) (v : List α)
    (m : List (κ × List α)) (k' : κ) :
    (lookupA (sdExtend k v m) k').isSome = true ↔
      k' = k ∨ (lookupA m k').isSome = true := by
  rw [lookupA_sdExtend]
  by_cases h : k' = k <;> simp [h]

lemma lookupA_assocSet {κ α : Type} [DecidableEq κ] (k : κ) (v : α)
    (m : List (κ × α)) (k' : κ) :
    lookupA (assocSet m k v) k' = if k' = k then some v else lookupA m k' := by
  induction m with
  | nil =>
    by_cases h : k' = k
    · subst h; simp [assocSet, lookupA]
    · simp [assocSet, lookupA, h, Ne.symm h]
  | cons p rest ih =>
    obtain ⟨k1, v1⟩ := p
    by_cases h1 : k1 = k
    · subst h1
      by_cases h2 : k' = k1
      · subst h2; simp [assocSet, lookupA]
      · simp [assocSet, lookupA, h2, Ne.symm h2]
    · rw [assocSet, if_neg h1]
      by_cases h2 : k1 = k'
      · subst h2
        simp [lookupA, h1, Ne.symm h1]
      · simp [lookupA, h1, h2, ih]

lemma mem_map_fst_iff_isSome {κ α : Type} [DecidableEq κ] (m : List (κ × α)) (k : κ) :
    k ∈ m.map Prod.fst ↔ (lookupA m k).isSome = true := by
  induction m with
  | nil => simp [lookupA]
  | cons p rest ih =>
    obtain ⟨k1, v1⟩ := p
    by_cases h : k1 = k
    · subst h; simp [lookupA]
    · simp [lookupA, h, ih, Ne.symm h]

/-! ### The per-group association fold -/

lemma vals_foldExt_preserve (il : List IcdEntry) (ks : List String) :
    ∀ (m : List (String × List IcdEntry)) (k : String) (e : IcdEntry),
      e ∈ (lookupA m k).getD [] →
      e ∈ (lookupA (ks.foldl (fun m1 k1 => sdExtend k1 il m1) m) k).getD [] := by
  induction ks with
  | nil => intro m k e h; exact h
  | cons k0 ks ih =>
    intro m k e h
    rw [List.foldl_cons]
    refine ih (sdExtend k0 il m) k e ?_
    rw [vals_sdExtend]
    by_cases hk : k = k0
    · rw [if_pos hk]
      subst hk
      exact List.mem_append_left _ h
    · rw [if_neg hk]; exact h

lemma isSome_foldExt_preserve (il : List IcdEntry) (ks : List String) :
    ∀ (m : List (String × List IcdEntry)) (k : String),
      (lookupA m k).isSome = true →
      (lookupA (ks.foldl (fun m1 k1 => sdExtend k1 il m1) m) k).isSome = true := by
  induction ks with
  | nil => intro m k h; exact h
  | cons k0 ks ih =>
    intro m k h
    rw [List.foldl_cons]
    exact ih _ k ((isSome_sdExtend k0 il m k).mpr (Or.inr h))

lemma isSome_foldExt_of_mem (il : List IcdEntry) (ks : List String) :
    ∀ (m : List (String × List IcdEntry)) (k : String), k ∈ ks →
      (lookupA (ks.foldl (fun m1 k1 => sdExtend k1 il m1) m) k).isSome = true := by
  induction ks with
  | nil => intro m k h; simp at h
  | cons k0 ks ih =>
    intro m k h
    rw [List.foldl_cons]
    rcases List.mem_cons.mp h with rfl | h
    · exact isSome_foldExt_preserve il ks _ k ((isSome_sdExtend k il m k).mpr (Or.inl rfl))
    · exact ih _ k h

lemma vals_foldExt_of_mem (il : List IcdEntry) (ks : List String) :
    ∀ (m : List (String × List IcdEntry)) (k : String) (e : IcdEntry),
      k ∈ ks → e ∈ il →
      e ∈ (lookupA (ks.foldl (fun m1 k1 => sdExtend k1 il m1) m) k).getD [] := by
  induction ks with
  | nil => intro m k e h; simp at h
  | cons k0 ks ih =>
    intro m k e h he
    rw [List.foldl_cons]
    rcases List.mem_cons.mp h with rfl | h
    · refine vals_foldExt_preserve il ks _ k e ?_
      rw [vals_sdExtend, if_pos rfl]
      exact List.mem_append_right _ he
    · exact ih _ k e h he

lemma isSome_foldExt_origin (il : List IcdEntry) (ks : List String) :
    ∀ (m : List (String × List IcdEntry)) (k : String),
      (lookupA (ks.foldl (fun m1 k1 => sdExtend k1 il m1) m) k).isSome = true →
      (lookupA m k).isSome = true ∨ k ∈ ks := by
  induction ks with
  | nil => intro m k h; exact Or.inl h
  | cons k0 ks ih =>
    intro m k h
    rw [List.foldl_cons] at h
    rcases ih _ k h with h1 | h1
    · rcases (isSome_sdExtend k0 il m k).mp h1 with rfl | h2
      · exact Or.inr (by simp)
      · exact Or.inl h2
    · exact Or.inr (by simp [h1])

lemma vals_foldExt_nil (ks : List String) :
    ∀ (m : List (String × List IcdEntry)) (k : String),
      (lookupA (ks.foldl (fun m1 k1 => sdExtend k1 ([] : List IcdEntry) m1) m) k).getD [] =
        (lookupA m k).getD [] := by
  induction ks with
  | nil => intro m k; rfl
  | cons k0 ks ih =>
    intro m k
    rw [List.foldl_cons, ih, vals_sdExtend]
    by_cases hk : k = k0
    · subst hk; simp
    · rw [if_neg hk]

/-! ### The coverage-group fold of the Mapping Builder -/

lemma assocStep_eq (allIds : List String) (idx : List (Int × List IcdEntry))
    (m : List (String × List IcdEntry)) (g : GroupRecord) :
    assocStep allIds idx m g =
      if (extract_cpt_codes_from_paragraph (g.paragraph.getD "")).isEmpty
      then allIds.foldl (fun m1 k => sdExtend k (groupIcds idx g) m1) m
      else (extract_cpt_codes_from_paragraph (g.paragraph.getD "")).foldl
        (fun m1 k => sdExtend k (groupIcds idx g) m1) m := rfl

lemma vals_assocStep_preserve {allIds : List String} {idx : List (Int × List IcdEntry)}
    {m : List (String × List IcdEntry)} {g : GroupRecord} {k : String} {e : IcdEntry}
    (h : e ∈ (lookupA m k).getD []) :
    e ∈ (lookupA (assocStep allIds idx m g) k).getD [] := by
  rw [assocStep_eq]
  by_cases hb : (extract_cpt_codes_from_paragraph (g.paragraph.getD "")).isEmpty
  · rw [if_pos hb]; exact vals_foldExt_preserve _ _ _ _ _ h
  · rw [if_neg hb]; exact vals_foldExt_preserve _ _ _ _ _ h

lemma isSome_assocStep_preserve {allIds : List String} {idx : List (Int × List IcdEntry)}
    {m : List (String × List IcdEntry)} {g : GroupRecord} {k : String}
    (h : (lookupA m k).isSome = true) :
    (lookupA (assocStep allIds idx m g) k).isSome = true := by
  rw [assocStep_eq]
  by_cases hb : (extract_cpt_codes_from_paragraph (g.paragraph.getD "")).isEmpty
  · rw [if_pos hb]; exact isSome_foldExt_preserve _ _ _ _ h
  · rw [if_neg hb]; exact isSome_foldExt_preserve _ _ _ _ h

lemma isSome_assocStep_origin {allIds : List String} {idx : List (Int × List IcdEntry)}
    {m : List (String × List IcdEntry)} {g : GroupRecord} {k : String}
    (h : (lookupA (assocStep allIds idx m g) k).isSome = true) :
    (lookupA m k).isSome = true ∨ k ∈ allIds ∨
      k ∈ extract_cpt_codes_from_paragraph (g.paragraph.getD "") := by
  rw [assocStep_eq] at h
  by_cases hb : (extract_cpt_codes_from_paragraph (g.paragraph.getD "")).isEmpty
  · rw [if_pos hb] at h
    rcases isSome_foldExt_origin _ _ _ _ h with h1 | h1
    · exact Or.inl h1
    · exact Or.inr (Or.inl h1)
  · rw [if_neg hb] at h
    rcases isSome_foldExt_origin _ _ _ _ h with h1 | h1
    · exact Or.inl h1
    · exact Or.inr (Or.inr h1)

lemma vals_groupsFold_preserve {allIds : List String} {idx : List (Int × List IcdEntry)}
    (grps : List GroupRecord) :
    ∀ (m : List (String × List IcdEntry)) (k : String) (e : IcdEntry),
      e ∈ (lookupA m k).getD [] →
      e ∈ (lookupA (grps.foldl (assocStep allIds idx) m) k).getD [] := by
  induction grps with
  | nil => intro m k e h; exact h
  | cons g0 gr ih =>
    intro m k e h
    rw [List.foldl_cons]
    exact ih _ k e (vals_assocStep_preserve h)

lemma isSome_groupsFold_preserve {allIds : List String} {idx : List (Int × List IcdEntry)}
    (grps : List GroupRecord) :
    ∀ (m : List (String × List IcdEntry)) (k : String),
      (lookupA m k).isSome = true →
      (lookupA (grps.foldl (assocStep allIds idx) m) k).isSome = true := by
  induction grps with
  | nil => intro m k h; exact h
  | cons g0 gr ih =>
    intro m k h
    rw [List.foldl_cons]
    exact ih _ k (isSome_assocStep_preserve h)

lemma groupsFold_fallback (allIds : List String) (idx : List (Int × List IcdEntry))
    {g : GroupRecord}
    (hext : extract_cpt_codes_from_paragraph (g.paragraph.getD "") = []) :
    ∀ (grps : List GroupRecord) (m : List (String × List IcdEntry)) (k : String),
      g ∈ grps → k ∈ allIds →
      (lookupA (grps.foldl (assocStep allIds idx) m) k).isSome = true ∧
        ∀ ic ∈ groupIcds idx g,
          ic ∈ (lookupA (grps.foldl (assocStep allIds idx) m) k).getD [] := by
  intro grps
  induction grps with
  | nil => intro m k h; simp at h
  | cons g0 gr ih =>
    intro m k hg hk
    rcases List.mem_cons.mp hg with rfl | hg
    · rw [List.foldl_cons]
      have hstep : assocStep allIds idx m g =
          allIds.foldl (fun m1 k1 => sdExtend k1 (groupIcds idx g) m1) m := by
        rw [assocStep_eq, hext]
        rfl
      constructor
      · refine isSome_groupsFold_preserve gr _ k ?_
        rw [hstep]
        exact isSome_foldExt_of_mem _ _ _ k hk
      · intro ic hic
        refine vals_groupsFold_preserve gr _ k ic ?_
        rw [hstep]
        exact vals_foldExt_of_mem _ _ _ k ic hk hic
    · rw [List.foldl_cons]
      exact ih _ k hg hk

lemma groupsFold_extracted (allIds : List String) (idx : List (Int × List IcdEntry))
    {g : GroupRecord} {k : String}
    (hk : k ∈ extract_cpt_codes_from_paragraph (g.paragraph.getD "")) :
    ∀ (grps : List GroupRecord) (m : List (String × List IcdEntry)), g ∈ grps →
      (lookupA (grps.foldl (assocStep allIds idx) m) k).isSome = true := by
  intro grps
  induction grps with
  | nil => intro m h; simp at h
  | cons g0 gr ih =>
    intro m hg
    rcases List.mem_cons.mp hg with rfl | hg
    · rw [List.foldl_cons]
      have hne : ¬ (extract_cpt_codes_from_paragraph (g.paragraph.getD "")).isEmpty = true := by
        cases hext : extract_cpt_codes_from_paragraph (g.paragraph.getD "") with
        | nil => rw [hext] at hk; simp at hk
        | cons a l => simp [hext]
      refine isSome_groupsFold_preserve gr _ k ?_
      rw [assocStep_eq, if_neg hne]
      exact isSome_foldExt_of_mem _ _ _ k hk
    · rw [List.foldl_cons]
      exact ih _ hg

lemma groupsFold_origin {allIds : List String} {idx : List (Int × List IcdEntry)}
    (grps : List GroupRecord) :
    ∀ (m : List (String × List IcdEntry)) (k : String),
      (lookupA (grps.foldl (assocStep allIds idx) m) k).isSome = true →
      (lookupA m k).isSome = true ∨ k ∈ allIds ∨
        ∃ g ∈ grps, k ∈ extract_cpt_codes_from_paragraph (g.paragraph.getD "") := by
  induction grps with
  | nil => intro m k h; exact Or.inl h
  | cons g0 gr ih =>
    intro m k h
    rw [List.foldl_cons] at h
    rcases ih _ k h with h1 | h1 | h1
    · rcases isSome_assocStep_origin h1 with h2 | h2 | h2
      · exact Or.inl h2
      · exact Or.inr (Or.inl h2)
      · exact Or.inr (Or.inr ⟨g0, by simp, h2⟩)
    · exact Or.inr (Or.inl h1)
    · obtain ⟨g, hg, hkg⟩ := h1
      exact Or.inr (Or.inr ⟨g, by simp [hg], hkg⟩)

lemma groupsFold_emptyIcds (allIds : List String) (idx : List (Int × List IcdEntry))
    (grps : List GroupRecord)
    (hall : ∀ g' ∈ grps, groupIcds idx g' = []) :
    ∀ (m : List (String × List IcdEntry)) (k : String),
      (lookupA (grps.foldl (assocStep allIds idx) m) k).getD [] =
        (lookupA m k).getD [] := by
  induction grps with
  | nil => intro m k; rfl
  | cons g0 gr ih =>
    intro m k
    rw [List.foldl_cons,
        ih (fun g' hg' => hall g' (by simp [hg'])) _ k]
    rw [assocStep_eq, hall g0 (by simp)]
    by_cases hb : (extract_cpt_codes_from_paragraph (g0.paragraph.getD "")).isEmpty
    · rw [if_pos hb, vals_foldExt_nil]
    · rw [if_neg hb, vals_foldExt_nil]

/-! ### Compaction and deduplication -/

lemma lookupA_byCpt (hIdx : List (String × HcpcEntry)) (m : List (String × List IcdEntry))
    (k : String) :
    lookupA (byCpt hIdx m) k =
      (lookupA m k).map (fun l =>
        ⟨k, ((lookupA hIdx k).map HcpcEntry.description).getD "", dedupByCode l⟩) := by
  induction m with
  | nil => simp [byCpt, lookupA]
  | cons p rest ih =>
    obtain ⟨k1, l⟩ := p
    by_cases h : k1 = k
    · subst h; simp [byCpt, lookupA]
    · simp only [byCpt, List.map_cons] at ih ⊢
      simp [lookupA, h, ih]

lemma mem_code_dedupGo (c : String) :
    ∀ (l : List IcdEntry) (seen : List String),
      (c ∈ (dedupGo seen l).map IcdEntry.code ↔ c ∈ l.map IcdEntry.code ∧ c ∉ seen) := by
  intro l
  induction l with
  | nil => intro seen; simp [dedupGo]
  | cons e rest ih =>
    intro seen
    by_cases h : e.code ∈ seen
    · rw [dedupGo, if_pos h, ih seen, List.map_cons]
      constructor
      · rintro ⟨h1, h2⟩
        exact ⟨List.mem_cons_of_mem _ h1, h2⟩
      · rintro ⟨h1, h2⟩
        rcases List.mem_cons.mp h1 with rfl | h3
        · exact absurd h h2
        · exact ⟨h3, h2⟩
    · rw [dedupGo, if_neg h, List.map_cons, List.map_cons]
      constructor
      · intro h1
        rcases List.mem_cons.mp h1 with rfl | h1
        · exact ⟨List.mem_cons_self _ _, h⟩
        · obtain ⟨h2, h3⟩ := (ih (e.code :: seen)).mp h1
          exact ⟨List.mem_cons_of_mem _ h2, fun hc => h3 (List.mem_cons_of_mem _ hc)⟩
      · rintro ⟨h1, h2⟩
        rcases List.mem_cons.mp h1 with rfl | h1
        · exact List.mem_cons_self _ _
        · by_cases hce : c = e.code
          · subst hce; exact List.mem_cons_self _ _
          · refine List.mem_cons_of_mem _ ((ih (e.code :: seen)).mpr ⟨h1, ?_⟩)
            intro hc
            rcases List.mem_cons.mp hc with h3 | h3
            · exact hce h3
            · exact h2 h3

lemma mem_code_dedup (c : String) (l : List IcdEntry) :
    c ∈ (dedupByCode l).map IcdEntry.code ↔ c ∈ l.map IcdEntry.code := by
  rw [dedupByCode, mem_code_dedupGo]
  simp

/-- Claim C1: for every coverage group whose paragraph yields an empty
extracted-code list, the Mapping Builder associates that group's diagnosis
codes with every procedure code known anywhere in the article (every key
of the procedure index): each such key has a `by_cpt` entry whose
diagnosis-code list contains every diagnosis code of the group. -/
theorem c1_fallback_associates_all (hs : List HcpcRecord) (ics : List Icd10Record)
    (grps : List GroupRecord) (g : GroupRecord) (k : String)
    (hg : g ∈ grps)
    (hext : extract_cpt_codes_from_paragraph (g.paragraph.getD "") = [])
    (hk : k ∈ (hcpcById hs).map Prod.fst) :
    ∃ e, lookupA (build_cpt_icd10_mapping hs ics grps).by_cpt k = some e ∧
      ∀ ic ∈ groupIcds (icd10ByGroup ics) g, ic.code ∈ e.icd10_codes.map IcdEntry.code := by
  have hb : (build_cpt_icd10_mapping hs ics grps).by_cpt =
      byCpt (hcpcById hs)
        (grps.foldl (assocStep ((hcpcById hs).map Prod.fst) (icd10ByGroup ics)) []) := rfl
  obtain ⟨hsome, hvals⟩ :=
    groupsFold_fallback ((hcpcById hs).map Prod.fst)
      (icd10ByGroup ics) hext grps [] k hg hk
  obtain ⟨raw, hraw⟩ := Option.isSome_iff_exists.mp hsome
  refine ⟨⟨k, ((lookupA (hcpcById hs) k).map HcpcEntry.description).getD "",
    dedupByCode raw⟩, ?_, ?_⟩
  · rw [hb, lookupA_byCpt, hraw]
    rfl
  · intro ic hic
    have h1 := hvals ic hic
    rw [hraw] at h1
    simp only [Option.getD_some] at h1
    exact (mem_code_dedup _ _).mpr (List.mem_map.mpr ⟨ic, h1, rfl⟩)

/-- Witness for C1: one group with an unparsable paragraph, an article
with exactly two known procedure codes; both `by_cpt` entries contain the
group's diagnosis code. -/
theorem c1_fallback_associates_all_witness :
    (∃ e, lookupA (build_cpt_icd10_mapping
        [{ hcpc_code_id := some "81235" }, { hcpc_code_id := some "81240" }]
        [{ icd10_code_id := some "C34.10", description := some "Lung cancer",
           icd10_covered_group := some 1 }]
        [{ icd10_covered_group := some 1, paragraph := some "Covered diagnoses:" }]).by_cpt
        "81235" = some e ∧
      ∀ ic ∈ groupIcds (icd10ByGroup
          [{ icd10_code_id := some "C34.10", description := some "Lung cancer",
             icd10_covered_group := some 1 }])
          { icd10_covered_group := some 1, paragraph := some "Covered diagnoses:" },
        ic.code ∈ e.icd10_codes.map IcdEntry.code) ∧
    (∃ e, lookupA (build_cpt_icd10_mapping
        [{ hcpc_code_id := some "81235" }, { hcpc_code_id := some "81240" }]
        [{ icd10_code_id := some "C34.10", description := some "Lung cancer",
           icd10_covered_group := some 1 }]
        [{ icd10_covered_group := some 1, paragraph := some "Covered diagnoses:" }]).by_cpt
        "81240" = some e ∧
      ∀ ic ∈ groupIcds (icd10ByGroup
          [{ icd10_code_id := some "C34.10", description := some "Lung cancer",
             icd10_covered_group := some 1 }])
          { icd10_covered_group := some 1, paragraph := some "Covered diagnoses:" },
        ic.code ∈ e.icd10_codes.map IcdEntry.code) :=
  ⟨c1_fallback_associates_all _ _ _ _ "81235" (by decide) (by decide) (by decide),
   c1_fallback_associates_all _ _ _ _ "81240" (by decide) (by decide) (by decide)⟩

lemma isSome_option_map {α β : Type} (f : α → β) (x : Option α) :
    (Option.map f x).isSome = x.isSome := by cases x <;> rfl

/-- Claim C9: every procedure code extracted from some coverage-group
paragraph gets a `by_cpt` entry keyed by that code; when no group
contributes diagnosis codes (group ids absent or unindexed) the entry's
diagnosis list is empty, and when the code is not in the procedure index
its description is the empty string. -/
theorem c9_extracted_codes_keyed (hs : List HcpcRecord) (ics : List Icd10Record)
    (grps : List GroupRecord) (g : GroupRecord) (c : String)
    (hg : g ∈ grps)
    (hc : c ∈ extract_cpt_codes_from_paragraph (g.paragraph.getD "")) :
    ∃ e, lookupA (build_cpt_icd10_mapping hs ics grps).by_cpt c = some e ∧
      ((∀ g' ∈ grps, groupIcds (icd10ByGroup ics) g' = []) → e.icd10_codes = []) ∧
      (lookupA (hcpcById hs) c = none → e.description = "") := by
  have hb : (build_cpt_icd10_mapping hs ics grps).by_cpt =
      byCpt (hcpcById hs)
        (grps.foldl (assocStep ((hcpcById hs).map Prod.fst) (icd10ByGroup ics)) []) := rfl
  have hsome := groupsFold_extracted ((hcpcById hs).map Prod.fst)
    (icd10ByGroup ics) hc grps [] hg
  obtain ⟨raw, hraw⟩ := Option.isSome_iff_exists.mp hsome
  refine ⟨⟨c, ((lookupA (hcpcById hs) c).map HcpcEntry.description).getD "",
    dedupByCode raw⟩, ?_, ?_, ?_⟩
  · rw [hb, lookupA_byCpt, hraw]
    rfl
  · intro hall
    have hv := groupsFold_emptyIcds ((hcpcById hs).map Prod.fst) (icd10ByGroup ics) grps hall [] c
    rw [hraw] at hv
    simp only [Option.getD_some, lookupA, Option.getD_none] at hv
    rw [hv]
    rfl
  · intro hnone
    simp [hnone]

/-- Witness for C9: a code extracted from a group with no group id is
keyed in `by_cpt` with an empty diagnosis list and empty description. -/
theorem c9_extracted_codes_keyed_witness :
    ∃ e, lookupA (build_cpt_icd10_mapping [] []
        [{ paragraph := some "CPT code 81235" }]).by_cpt "81235" = some e ∧
      ((∀ g' ∈ [({ paragraph := some "CPT code 81235" } : GroupRecord)],
          groupIcds (icd10ByGroup []) g' = []) → e.icd10_codes = []) ∧
      (lookupA (hcpcById []) "81235" = none → e.description = "") :=
  c9_extracted_codes_keyed [] [] [{ paragraph := some "CPT code 81235" }]
    { paragraph := some "CPT code 81235" } "81235" (by decide) (by decide)

/-- The procedure-index key characterization used by claim C10, proved for
the index-building fold from an arbitrary accumulator. -/
lemma isSome_hcpcById_fold :
    ∀ (hs : List HcpcRecord) (m : List (String × HcpcEntry)) (k : String),
      (lookupA (hs.foldl (fun m h =>
          let cid := pyStripS (h.hcpc_code_id.getD "")
          if cid = "" then m else assocSet m cid ⟨cid, descOf h, h.hcpc_code_group⟩) m)
        k).isSome = true ↔
      ((lookupA m k).isSome = true ∨
        (k ≠ "" ∧ ∃ h ∈ hs, pyStripS (h.hcpc_code_id.getD "") = k)) := by
  intro hs
  induction hs with
  | nil => intro m k; simp
  | cons h0 rest ih =>
    intro m k
    rw [List.foldl_cons]
    by_cases hcid : pyStripS (h0.hcpc_code_id.getD "") = ""
    · have hstep : (let cid := pyStripS (h0.hcpc_code_id.getD "")
          if cid = "" then m
          else assocSet m cid ⟨cid, descOf h0, h0.hcpc_code_group⟩) = m := by
        show (if pyStripS (h0.hcpc_code_id.getD "") = "" then m
          else assocSet m (pyStripS (h0.hcpc_code_id.getD ""))
            ⟨pyStripS (h0.hcpc_code_id.getD ""), descOf h0, h0.hcpc_code_group⟩) = m
        rw [if_pos hcid]
      rw [hstep, ih]
      constructor
      · rintro (h1 | ⟨h1, h2, h3, h4⟩)
        · exact Or.inl h1
        · exact Or.inr ⟨h1, h2, by simp [h3], h4⟩
      · rintro (h1 | ⟨h1, h2, h3, h4⟩)
        · exact Or.inl h1
        · rcases List.mem_cons.mp h3 with rfl | h3
          · exact absurd (hcid ▸ h4) (Ne.symm h1)
          · exact Or.inr ⟨h1, h2, h3, h4⟩
    · have hstep : (let cid := pyStripS (h0.hcpc_code_id.getD "")
          if cid = "" then m
          else assocSet m cid ⟨cid, descOf h0, h0.hcpc_code_group⟩) =
            assocSet m (pyStripS (h0.hcpc_code_id.getD ""))
              ⟨pyStripS (h0.hcpc_code_id.getD ""), descOf h0, h0.hcpc_code_group⟩ := by
        show (if pyStripS (h0.hcpc_code_id.getD "") = "" then m
          else assocSet m (pyStripS (h0.hcpc_code_id.getD ""))
            ⟨pyStripS (h0.hcpc_code_id.getD ""), descOf h0, h0.hcpc_code_group⟩) = _
        rw [if_neg hcid]
      rw [hstep, ih]
      constructor
      · rintro (h1 | ⟨h1, h2, h3, h4⟩)
        · rw [lookupA_assocSet] at h1
          by_cases hk : k = pyStripS (h0.hcpc_code_id.getD "")
          · exact Or.inr ⟨hk ▸ hcid, h0, by simp, hk.symm⟩
          · rw [if_neg hk] at h1
            exact Or.inl h1
        · exact Or.inr ⟨h1, h2, by simp [h3], h4⟩
      · rintro (h1 | ⟨h1, h2, h3, h4⟩)
        · refine Or.inl ?_
          rw [lookupA_assocSet]
          by_cases hk : k = pyStripS (h0.hcpc_code_id.getD "")
          · rw [if_pos hk]; rfl
          · rw [if_neg hk]; exact h1
        · rcases List.mem_cons.mp h3 with rfl | h3
          · refine Or.inl ?_
            rw [lookupA_assocSet, if_pos h4.symm]
            rfl
          · exact Or.inr ⟨h1, h2, h3, h4⟩

/-- Claim C10: procedure records whose id is absent, empty or
whitespace-only never enter the procedure index (every index key is the
nonempty stripped id of some record), and every `by_cpt` key comes either
from the procedure index (in particular via the fallback) or from a code
extracted from some paragraph, so unindexed records receive no fallback
associations. -/
theorem c10_blank_ids_excluded (hs : List HcpcRecord) (ics : List Icd10Record)
    (grps : List GroupRecord) :
    (∀ k, (lookupA (hcpcById hs) k).isSome = true ↔
        (k ≠ "" ∧ ∃ h ∈ hs, pyStripS (h.hcpc_code_id.getD "") = k)) ∧
    (∀ k, (lookupA (build_cpt_icd10_mapping hs ics grps).by_cpt k).isSome = true →
        (lookupA (hcpcById hs) k).isSome = true ∨
          ∃ g ∈ grps, k ∈ extract_cpt_codes_from_paragraph (g.paragraph.getD "")) := by
  constructor
  · intro k
    have h := isSome_hcpcById_fold hs [] k
    simp only [lookupA, Option.isSome_none] at h
    rw [show hcpcById hs = hs.foldl (fun m h =>
        let cid := pyStripS (h.hcpc_code_id.getD "")
        if cid = "" then m else assocSet m cid ⟨cid, descOf h, h.hcpc_code_group⟩) [] from rfl]
    rw [h]
    simp
  · intro k hk
    have hb : (build_cpt_icd10_mapping hs ics grps).by_cpt =
        byCpt (hcpcById hs)
          (grps.foldl (assocStep ((hcpcById hs).map Prod.fst) (icd10ByGroup ics)) []) := rfl
    rw [hb, lookupA_byCpt, isSome_option_map] at hk
    rcases groupsFold_origin grps [] k hk with h1 | h1 | h1
    · simp [lookupA] at h1
    · exact Or.inl ((mem_map_fst_iff_isSome _ _).mp h1)
    · exact Or.inr h1

/-- Witness for C10 at concrete inputs: a whitespace-only id is excluded
from the index and from `by_cpt`. -/
theorem c10_blank_ids_excluded_witness :
    ((∀ k, (lookupA (hcpcById [{ hcpc_code_id := some "   " }]) k).isSome = true ↔
        (k ≠ "" ∧ ∃ h ∈ [({ hcpc_code_id := some "   " } : HcpcRecord)],
          pyStripS (h.hcpc_code_id.getD "") = k)) ∧
      (∀ k, (lookupA (build_cpt_icd10_mapping [{ hcpc_code_id := some "   " }] []
          []).by_cpt k).isSome = true →
        (lookupA (hcpcById [{ hcpc_code_id := some "   " }]) k).isSome = true ∨
          ∃ g ∈ ([] : List GroupRecord),
            k ∈ extract_cpt_codes_from_paragraph (g.paragraph.getD ""))) :=
  c10_blank_ids_excluded [{ hcpc_code_id := some "   " }] [] []

/-! ### Defaulting of missing fields (error-handling design) -/

lemma hcpcById_fold_id_of_missing :
    ∀ (hs : List HcpcRecord), (∀ h ∈ hs, h.hcpc_code_id = none) →
      ∀ (m : List (String × HcpcEntry)),
        hs.foldl (fun m h =>
          let cid := pyStripS (h.hcpc_code_id.getD "")
          if cid = "" then m else assocSet m cid ⟨cid, descOf h, h.hcpc_code_group⟩) m = m := by
  intro hs
  induction hs with
  | nil => intro _ m; rfl
  | cons h0 rest ih =>
    intro hall m
    rw [List.foldl_cons]
    have h0id : h0.hcpc_code_id = none := hall h0 (by simp)
    have hstep : (let cid := pyStripS (h0.hcpc_code_id.getD "")
        if cid = "" then m
        else assocSet m cid ⟨cid, descOf h0, h0.hcpc_code_group⟩) = m := by
      rw [h0id]
      rfl
    rw [hstep, ih (fun h hh => hall h (by simp [hh])) m]

lemma icd10ByGroup_nil_of_missing (ics : List Icd10Record)
    (hall : ∀ r ∈ ics, r.icd10_covered_group = none) : icd10ByGroup ics = [] := by
  show ics.foldl _ [] = []
  suffices h : ∀ (ics : List Icd10Record), (∀ r ∈ ics, r.icd10_covered_group = none) →
      ∀ (m : List (Int × List IcdEntry)),
        ics.foldl (fun m r => match r.icd10_covered_group with
          | none => m
          | some g => sdExtend g [icdEntryOf r] m) m = m by
    exact h ics hall []
  intro ics
  induction ics with
  | nil => intro _ m; rfl
  | cons r0 rest ih =>
    intro hall m
    rw [List.foldl_cons]
    have h0 : r0.icd10_covered_group = none := hall r0 (by simp)
    have hstep : (match r0.icd10_covered_group with
        | none => m
        | some g => sdExtend g [icdEntryOf r0] m) = m := by rw [h0]
    rw [hstep, ih (fun r hr => hall r (by simp [hr])) m]

lemma groupsFold_id_of_no_paragraph {idx : List (Int × List IcdEntry)} :
    ∀ (grps : List GroupRecord), (∀ g ∈ grps, g.paragraph = none) →
      ∀ (m : List (String × List IcdEntry)),
        grps.foldl (assocStep [] idx) m = m := by
  intro grps
  induction grps with
  | nil => intro _ m; rfl
  | cons g0 rest ih =>
    intro hall m
    rw [List.foldl_cons]
    have h0 : g0.paragraph = none := hall g0 (by simp)
    have hstep : assocStep [] idx m g0 = m := by
      rw [assocStep_eq, h0]
      rfl
    rw [hstep, ih (fun g hg => hall g (by simp [hg])) m]

/-- Claim C8: the core never raises.  In this embedding every function is
total by construction, so the extractor returns a list for every paragraph
string; and when fields of the input records are missing, the Mapping
Builder returns a result in which everything derived from them is
defaulted to empty strings and empty lists rather than failing: the
procedure index is empty, no `by_cpt` entry is created, and every group
entry carries an empty paragraph, no extracted codes and no diagnosis
codes. -/
theorem c8_never_raises_defaults (hs : List HcpcRecord) (ics : List Icd10Record)
    (grps : List GroupRecord)
    (hh : ∀ h ∈ hs, h.hcpc_code_id = none)
    (hi : ∀ r ∈ ics, r.icd10_covered_group = none)
    (hg : ∀ g ∈ grps, g.paragraph = none ∧ g.icd10_covered_group = none) :
    (∀ p : String, ∃ codes : List String, extract_cpt_codes_from_paragraph p = codes) ∧
    build_cpt_icd10_mapping hs ics grps =
      ⟨[], grps.map (fun _ => ⟨none, "", [], []⟩), []⟩ := by
  constructor
  · intro p
    exact ⟨_, rfl⟩
  · have h1 : hcpcById hs = [] := hcpcById_fold_id_of_missing hs hh []
    have h2 : icd10ByGroup ics = [] := icd10ByGroup_nil_of_missing ics hi
    have hb : build_cpt_icd10_mapping hs ics grps =
        ⟨byCpt (hcpcById hs)
          (grps.foldl (assocStep ((hcpcById hs).map Prod.fst) (icd10ByGroup ics)) []),
         grps.map (groupOut (icd10ByGroup ics)), hcpcById hs⟩ := rfl
    rw [hb, h1, h2]
    have h3 : grps.foldl (assocStep (([] : List (String × HcpcEntry)).map Prod.fst)
        ([] : List (Int × List IcdEntry))) [] = [] :=
      groupsFold_id_of_no_paragraph grps (fun g hgm => (hg g hgm).1) []
    rw [h3]
    congr 1
    refine List.map_congr_left ?_
    intro g hgm
    obtain ⟨hp, hn⟩ := hg g hgm
    unfold groupOut groupIcds
    rw [hp, hn]
    rfl

/-- Witness for C8: fully-empty records produce the fully-defaulted
result. -/
theorem c8_never_raises_defaults_witness :
    (∀ p : String, ∃ codes : List String, extract_cpt_codes_from_paragraph p = codes) ∧
    build_cpt_icd10_mapping [({} : HcpcRecord)] [({} : Icd10Record)] [({} : GroupRecord)] =
      ⟨[], ([({} : GroupRecord)]).map (fun _ => ⟨none, "", [], []⟩), []⟩ :=
  c8_never_raises_defaults [({} : HcpcRecord)] [({} : Icd10Record)] [({} : GroupRecord)]
    (by decide) (by decide) (by decide)

/-! ### The Reverse Mapping Builder -/

lemma lookupA_revAppendCpt_ne (cpt desc ic : String) {d : String} (hd : d ≠ ic) :
    ∀ (rev : List (String × RevEntry)),
      lookupA (revAppendCpt cpt desc ic rev) d = lookupA rev d := by
  intro rev
  induction rev with
  | nil => rfl
  | cons p rest ih =>
    obtain ⟨k, e⟩ := p
    by_cases hk : k = ic
    · rw [revAppendCpt, if_pos hk]
      have hkd : ¬ (k = d) := fun h => hd (h.symm.trans hk)
      by_cases hmem : cpt ∈ e.cpt_codes.map CptRef.code
      · rw [if_pos hmem]
      · rw [if_neg hmem]
        simp [lookupA, hkd]
    · rw [revAppendCpt, if_neg hk]
      by_cases hkd : k = d
      · simp [lookupA, hkd]
      · simp [lookupA, hkd, ih]

lemma lookupA_revAppendCpt_eq (cpt desc ic : String) :
    ∀ (rev : List (String × RevEntry)),
      lookupA (revAppendCpt cpt desc ic rev) ic =
        (lookupA rev ic).map (fun e =>
          if cpt ∈ e.cpt_codes.map CptRef.code then e
          else ⟨e.code, e.description, e.cpt_codes ++ [⟨cpt, desc⟩]⟩) := by
  intro rev
  induction rev with
  | nil => rfl
  | cons p rest ih =>
    obtain ⟨k, e⟩ := p
    by_cases hk : k = ic
    · rw [revAppendCpt, if_pos hk]
      by_cases hmem : cpt ∈ e.cpt_codes.map CptRef.code
      · rw [if_pos hmem]
        simp [lookupA, hk]
        exact (if_pos (by simpa using hmem)).symm
      · rw [if_neg hmem]
        simp [lookupA, hk]
        exact (if_neg (by simpa using hmem)).symm
    · rw [revAppendCpt, if_neg hk]
      simp [lookupA, hk, ih]

lemma lookupA_append_single (rev : List (String × RevEntry)) (k0 : String) (e0 : RevEntry)
    (d : String) :
    lookupA (rev ++ [(k0, e0)]) d =
      if (lookupA rev d).isSome then lookupA rev d
      else if d = k0 then some e0 else none := by
  induction rev with
  | nil =>
    by_cases h : d = k0
    · simp [lookupA, h]
    · simp [lookupA, h, Ne.symm h]
  | cons p rest ih =>
    obtain ⟨k, e⟩ := p
    by_cases hk : k = d
    · simp [lookupA, hk]
    · simp [lookupA, hk, ih]

lemma mem_update_entry (cpt desc c : String) (e : RevEntry) :
    (c ∈ ((if cpt ∈ e.cpt_codes.map CptRef.code then e
      else (⟨e.code, e.description, e.cpt_codes ++ [⟨cpt, desc⟩]⟩ : RevEntry)).cpt_codes.map
        CptRef.code)) ↔
      (c ∈ e.cpt_codes.map CptRef.code ∨ c = cpt) := by
  by_cases hmem : cpt ∈ e.cpt_codes.map CptRef.code
  · rw [if_pos hmem]
    constructor
    · exact Or.inl
    · rintro (h | rfl)
      · exact h
      · exact hmem
  · rw [if_neg hmem]
    show c ∈ (e.cpt_codes ++ [(⟨cpt, desc⟩ : CptRef)]).map CptRef.code ↔ _
    rw [List.map_append, List.mem_append]
    simp

lemma isSome_revAdd (cpt desc : String) (rev : List (String × RevEntry)) (icd : IcdEntry)
    (d : String) :
    (lookupA (revAdd cpt desc rev icd) d).isSome = true ↔
      d = icd.code ∨ (lookupA rev d).isSome = true := by
  have h1 : revAdd cpt desc rev icd = revAppendCpt cpt desc icd.code
      (if (lookupA rev icd.code).isSome then rev
       else rev ++ [(icd.code, ⟨icd.code, icd.description, []⟩)]) := rfl
  by_cases hd : d = icd.code
  · subst hd
    rw [h1, lookupA_revAppendCpt_eq, isSome_option_map]
    by_cases hs : (lookupA rev icd.code).isSome
    · rw [if_pos hs]; simp [hs]
    · rw [if_neg hs, lookupA_append_single, if_neg hs, if_pos rfl]
      simp
  · rw [h1, lookupA_revAppendCpt_ne _ _ _ hd]
    by_cases hs : (lookupA rev icd.code).isSome
    · rw [if_pos hs]
      simp [hd]
    · rw [if_neg hs, lookupA_append_single, if_neg hd]
      by_cases h2 : (lookupA rev d).isSome
      · rw [if_pos h2]
        simp [hd]
      · rw [if_neg h2]
        simp [hd, Option.not_isSome_iff_eq_none.mp h2]

lemma mem_revAdd (cpt desc c : String) (rev : List (String × RevEntry)) (icd : IcdEntry)
    (d : String) :
    (∃ e, lookupA (revAdd cpt desc rev icd) d = some e ∧ c ∈ e.cpt_codes.map CptRef.code) ↔
      ((∃ e, lookupA rev d = some e ∧ c ∈ e.cpt_codes.map CptRef.code) ∨
        (d = icd.code ∧ c = cpt)) := by
  have h1 : revAdd cpt desc rev icd = revAppendCpt cpt desc icd.code
      (if (lookupA rev icd.code).isSome then rev
       else rev ++ [(icd.code, ⟨icd.code, icd.description, []⟩)]) := rfl
  by_cases hd : d = icd.code
  · subst hd
    rw [h1, lookupA_revAppendCpt_eq]
    by_cases hs : (lookupA rev icd.code).isSome
    · rw [if_pos hs]
      obtain ⟨e1, he1⟩ := Option.isSome_iff_exists.mp hs
      rw [he1, Option.map_some']
      constructor
      · rintro ⟨e, he, hc⟩
        rw [Option.some_inj] at he
        subst he
        rcases (mem_update_entry cpt desc c e1).mp hc with h | h
        · exact Or.inl ⟨e1, rfl, h⟩
        · exact Or.inr ⟨rfl, h⟩
      · rintro (⟨e, he, hc⟩ | ⟨-, rfl⟩)
        · rw [Option.some_inj] at he
          subst he
          exact ⟨_, rfl, (mem_update_entry cpt desc c e1).mpr (Or.inl hc)⟩
        · exact ⟨_, rfl, (mem_update_entry c desc c e1).mpr (Or.inr rfl)⟩
    · rw [if_neg hs, lookupA_append_single, if_neg hs, if_pos rfl, Option.map_some']
      have hnone : lookupA rev icd.code = none := Option.not_isSome_iff_eq_none.mp hs
      constructor
      · rintro ⟨e, he, hc⟩
        rw [Option.some_inj] at he
        subst he
        rcases (mem_update_entry cpt desc c ⟨icd.code, icd.description, []⟩).mp hc with h | h
        · simp at h
        · exact Or.inr ⟨rfl, h⟩
      · rintro (⟨e, he, hc⟩ | ⟨-, rfl⟩)
        · rw [hnone] at he
          cases he
        · exact ⟨_, rfl,
            (mem_update_entry c desc c ⟨icd.code, icd.description, []⟩).mpr (Or.inr rfl)⟩
  · rw [h1, lookupA_revAppendCpt_ne _ _ _ hd]
    by_cases hs : (lookupA rev icd.code).isSome
    · rw [if_pos hs]
      constructor
      · exact fun h => Or.inl h
      · rintro (h | ⟨hdd, -⟩)
        · exact h
        · exact absurd hdd hd
    · rw [if_neg hs, lookupA_append_single, if_neg hd]
      by_cases h2 : (lookupA rev d).isSome
      · rw [if_pos h2]
        constructor
        · exact fun h => Or.inl h
        · rintro (h | ⟨hdd, -⟩)
          · exact h
          · exact absurd hdd hd
      · rw [if_neg h2]
        have hnone : lookupA rev d = none := Option.not_isSome_iff_eq_none.mp h2
        constructor
        · rintro ⟨e, he, -⟩
          cases he
        · rintro (⟨e, he, -⟩ | ⟨hdd, -⟩)
          · rw [hnone] at he
            cases he
          · exact absurd hdd hd

lemma isSome_revFoldIcds (cpt desc : String) :
    ∀ (icds : List IcdEntry) (rev : List (String × RevEntry)) (d : String),
      (lookupA (icds.foldl (revAdd cpt desc) rev) d).isSome = true ↔
        ((lookupA rev d).isSome = true ∨ ∃ ic ∈ icds, ic.code = d) := by
  intro icds
  induction icds with
  | nil => intro rev d; simp
  | cons ic icds ih =>
    intro rev d
    rw [List.foldl_cons, ih, isSome_revAdd]
    constructor
    · rintro ((rfl | h) | ⟨ic1, h1, h2⟩)
      · exact Or.inr ⟨ic, by simp, rfl⟩
      · exact Or.inl h
      · exact Or.inr ⟨ic1, by simp [h1], h2⟩
    · rintro (h | ⟨ic1, h1, h2⟩)
      · exact Or.inl (Or.inr h)
      · rcases List.mem_cons.mp h1 with rfl | h1
        · exact Or.inl (Or.inl h2.symm)
        · exact Or.inr ⟨ic1, h1, h2⟩

lemma mem_revFoldIcds (cpt desc c : String) :
    ∀ (icds : List IcdEntry) (rev : List (String × RevEntry)) (d : String),
      (∃ e, lookupA (icds.foldl (revAdd cpt desc) rev) d = some e ∧
          c ∈ e.cpt_codes.map CptRef.code) ↔
        ((∃ e, lookupA rev d = some e ∧ c ∈ e.cpt_codes.map CptRef.code) ∨
          (c = cpt ∧ ∃ ic ∈ icds, ic.code = d)) := by
  intro icds
  induction icds with
  | nil => intro rev d; simp
  | cons ic icds ih =>
    intro rev d
    rw [List.foldl_cons, ih, mem_revAdd]
    constructor
    · rintro ((h | ⟨rfl, rfl⟩) | ⟨rfl, ic1, h1, h2⟩)
      · exact Or.inl h
      · exact Or.inr ⟨rfl, ic, by simp, rfl⟩
      · exact Or.inr ⟨rfl, ic1, by simp [h1], h2⟩
    · rintro (h | ⟨rfl, ic1, h1, h2⟩)
      · exact Or.inl (Or.inl h)
      · rcases List.mem_cons.mp h1 with rfl | h1
        · exact Or.inl (Or.inr ⟨h2.symm, rfl⟩)
        · exact Or.inr ⟨rfl, ic1, h1, h2⟩

lemma isSome_revFoldPairs :
    ∀ (P : List (String × CptEntry)) (rev : List (String × RevEntry)) (d : String),
      (lookupA (P.foldl
          (fun rev p => p.2.icd10_codes.foldl (revAdd p.1 p.2.description) rev) rev) d).isSome
          = true ↔
        ((lookupA rev d).isSome = true ∨
          ∃ p ∈ P, ∃ ic ∈ p.2.icd10_codes, ic.code = d) := by
  intro P
  induction P with
  | nil => intro rev d; simp
  | cons p0 P ih =>
    intro rev d
    rw [List.foldl_cons, ih, isSome_revFoldIcds]
    constructor
    · rintro ((h | ⟨ic, h1, h2⟩) | ⟨p1, h1, h2⟩)
      · exact Or.inl h
      · exact Or.inr ⟨p0, by simp, ic, h1, h2⟩
      · exact Or.inr ⟨p1, by simp [h1], h2⟩
    · rintro (h | ⟨p1, h1, h2⟩)
      · exact Or.inl (Or.inl h)
      · rcases List.mem_cons.mp h1 with rfl | h1
        · exact Or.inl (Or.inr h2)
        · exact Or.inr ⟨p1, h1, h2⟩

lemma mem_revFoldPairs (c : String) :
    ∀ (P : List (String × CptEntry)) (rev : List (String × RevEntry)) (d : String),
      (∃ e, lookupA (P.foldl
          (fun rev p => p.2.icd10_codes.foldl (revAdd p.1 p.2.description) rev) rev) d
            = some e ∧ c ∈ e.cpt_codes.map CptRef.code) ↔
        ((∃ e, lookupA rev d = some e ∧ c ∈ e.cpt_codes.map CptRef.code) ∨
          ∃ p ∈ P, p.1 = c ∧ ∃ ic ∈ p.2.icd10_codes, ic.code = d) := by
  intro P
  induction P with
  | nil => intro rev d; simp
  | cons p0 P ih =>
    intro rev d
    rw [List.foldl_cons, ih, mem_revFoldIcds]
    constructor
    · rintro ((h | ⟨rfl, ic, h1, h2⟩) | ⟨p1, h1, h2⟩)
      · exact Or.inl h
      · exact Or.inr ⟨p0, by simp, rfl, ic, h1, h2⟩
      · exact Or.inr ⟨p1, by simp [h1], h2⟩
    · rintro (h | ⟨p1, h1, rfl, ic, h2, h3⟩)
      · exact Or.inl (Or.inl h)
      · rcases List.mem_cons.mp h1 with rfl | h1
        · exact Or.inl (Or.inr ⟨rfl, ic, h2, h3⟩)
        · exact Or.inr ⟨p1, h1, rfl, ic, h2, h3⟩

/-- Claim C5: round trip between the two builders.  A diagnosis code `d`
appears in the reverse mapping exactly when some `by_cpt` entry of the
forward mapping references it, and the set of procedure codes stored under
`d` equals the set of `by_cpt` keys whose diagnosis list contains an entry
with code `d`. -/
theorem c5_reverse_round_trip (hs : List HcpcRecord) (ics : List Icd10Record)
    (grps : List GroupRecord) (d : String) :
    ((lookupA (build_icd10_to_cpt_mapping hs ics grps) d).isSome = true ↔
      ∃ p ∈ (build_cpt_icd10_mapping hs ics grps).by_cpt,
        ∃ ic ∈ p.2.icd10_codes, ic.code = d) ∧
    (∀ e, lookupA (build_icd10_to_cpt_mapping hs ics grps) d = some e →
      ∀ c : String, (c ∈ e.cpt_codes.map CptRef.code ↔
        ∃ p ∈ (build_cpt_icd10_mapping hs ics grps).by_cpt,
          p.1 = c ∧ ∃ ic ∈ p.2.icd10_codes, ic.code = d)) := by
  have hrev : build_icd10_to_cpt_mapping hs ics grps =
      (build_cpt_icd10_mapping hs ics grps).by_cpt.foldl
        (fun rev p => p.2.icd10_codes.foldl (revAdd p.1 p.2.description) rev) [] := rfl
  constructor
  · rw [hrev, isSome_revFoldPairs]
    constructor
    · rintro (h | h)
      · simp [lookupA] at h
      · exact h
    · exact Or.inr
  · intro e he c
    have h := mem_revFoldPairs c (build_cpt_icd10_mapping hs ics grps).by_cpt [] d
    rw [← hrev, he] at h
    constructor
    · intro hc
      rcases h.mp ⟨e, rfl, hc⟩ with ⟨e1, he1, hc1⟩ | h1
      · cases he1
      · exact h1
    · intro h1
      rcases h.mpr (Or.inr h1) with ⟨e1, he1, hc1⟩
      rw [Option.some_inj] at he1
      subst he1
      exact hc1

/-- Witness for C5 at a concrete article: one diagnosis code referenced by
two procedure codes through the fallback. -/
theorem c5_reverse_round_trip_witness :
    ((lookupA (build_icd10_to_cpt_mapping
        [{ hcpc_code_id := some "81235" }, { hcpc_code_id := some "81240" }]
        [{ icd10_code_id := some "C34.10", description := some "Lung cancer",
           icd10_covered_group := some 1 }]
        [{ icd10_covered_group := some 1, paragraph := some "Covered diagnoses:" }])
        "C34.10").isSome = true ↔
      ∃ p ∈ (build_cpt_icd10_mapping
        [{ hcpc_code_id := some "81235" }, { hcpc_code_id := some "81240" }]
        [{ icd10_code_id := some "C34.10", description := some "Lung cancer",
           icd10_covered_group := some 1 }]
        [{ icd10_covered_group := some 1, paragraph := some "Covered diagnoses:" }]).by_cpt,
        ∃ ic ∈ p.2.icd10_codes, ic.code = "C34.10") ∧
    (∀ e, lookupA (build_icd10_to_cpt_mapping
        [{ hcpc_code_id := some "81235" }, { hcpc_code_id := some "81240" }]
        [{ icd10_code_id := some "C34.10", description := some "Lung cancer",
           icd10_covered_group := some 1 }]
        [{ icd10_covered_group := some 1, paragraph := some "Covered diagnoses:" }])
        "C34.10" = some e →
      ∀ c : String, (c ∈ e.cpt_codes.map CptRef.code ↔
        ∃ p ∈ (build_cpt_icd10_mapping
          [{ hcpc_code_id := some "81235" }, { hcpc_code_id := some "81240" }]
          [{ icd10_code_id := some "C34.10", description := some "Lung cancer",
             icd10_covered_group := some 1 }]
          [{ icd10_covered_group := some 1, paragraph := some "Covered diagnoses:" }]).by_cpt,
          p.1 = c ∧ ∃ ic ∈ p.2.icd10_codes, ic.code = "C34.10")) :=
  c5_reverse_round_trip _ _ _ "C34.10"

/-! ### First-seen deduplication properties -/

lemma nodup_code_dedupGo :
    ∀ (l : List IcdEntry) (seen : List String), ((dedupGo seen l).map IcdEntry.code).Nodup := by
  intro l
  induction l with
  | nil => intro seen; simp [dedupGo]
  | cons e rest ih =>
    intro seen
    by_cases h : e.code ∈ seen
    · rw [dedupGo, if_pos h]
      exact ih seen
    · rw [dedupGo, if_neg h, List.map_cons, List.nodup_cons]
      refine ⟨fun hmem => ?_, ih (e.code :: seen)⟩
      have := (mem_code_dedupGo e.code rest (e.code :: seen)).mp hmem
      exact this.2 (by simp)

lemma find_dedupGo (c : String) :
    ∀ (l : List IcdEntry) (seen : List String), c ∉ seen →
      (dedupGo seen l).find? (fun ic => ic.code == c) = l.find? (fun ic => ic.code == c) := by
  intro l
  induction l with
  | nil => intro seen _; rfl
  | cons e rest ih =>
    intro seen hc
    by_cases hpa : (e.code == c) = true
    · have hec : e.code = c := beq_iff_eq.mp hpa
      by_cases hseen : e.code ∈ seen
      · exact absurd (hec ▸ hseen) hc
      · rw [dedupGo, if_neg hseen]
        simp [List.find?, hpa]
    · by_cases hseen : e.code ∈ seen
      · rw [dedupGo, if_pos hseen]
        rw [ih seen hc]
        simp [List.find?, hpa]
      · rw [dedupGo, if_neg hseen]
        have hcne : c ∉ e.code :: seen := by
          intro hmem
          rcases List.mem_cons.mp hmem with rfl | hmem
          · simp at hpa
          · exact hc hmem
        simp only [List.find?, hpa]
        exact ih (e.code :: seen) hcne

/-! ### Key uniqueness of the accumulated association map -/

lemma keys_sdExtend (k : String) (v : List IcdEntry) (m : List (String × List IcdEntry)) :
    (sdExtend k v m).map Prod.fst =
      if (lookupA m k).isSome then m.map Prod.fst else m.map Prod.fst ++ [k] := by
  induction m with
  | nil => simp [sdExtend, lookupA]
  | cons p rest ih =>
    obtain ⟨k1, l⟩ := p
    by_cases h : k1 = k
    · simp [sdExtend, lookupA, h]
    · simp only [sdExtend, if_neg h, List.map_cons, lookupA]
      rw [ih]
      by_cases hs : (lookupA rest k).isSome
      · rw [if_pos hs, if_pos hs]
      · rw [if_neg hs, if_neg hs]
        simp

lemma nodup_keys_sdExtend {k : String} {v : List IcdEntry}
    {m : List (String × List IcdEntry)} (h : (m.map Prod.fst).Nodup) :
    ((sdExtend k v m).map Prod.fst).Nodup := by
  rw [keys_sdExtend]
  by_cases hs : (lookupA m k).isSome
  · rw [if_pos hs]; exact h
  · rw [if_neg hs]
    rw [List.nodup_append]
    refine ⟨h, by simp, ?_⟩
    intro a ha hb
    simp only [List.mem_singleton] at hb
    subst hb
    exact hs ((mem_map_fst_iff_isSome m a).mp ha)

lemma nodup_keys_foldExt (il : List IcdEntry) (ks : List String) :
    ∀ (m : List (String × List IcdEntry)), (m.map Prod.fst).Nodup →
      (((ks.foldl (fun m1 k1 => sdExtend k1 il m1) m)).map Prod.fst).Nodup := by
  induction ks with
  | nil => intro m h; exact h
  | cons k0 ks ih =>
    intro m h
    rw [List.foldl_cons]
    exact ih _ (nodup_keys_sdExtend h)

lemma nodup_keys_groupsFold {allIds : List String} {idx : List (Int × List IcdEntry)}
    (grps : List GroupRecord) :
    ∀ (m : List (String × List IcdEntry)), (m.map Prod.fst).Nodup →
      ((grps.foldl (assocStep allIds idx) m).map Prod.fst).Nodup := by
  induction grps with
  | nil => intro m h; exact h
  | cons g0 gr ih =>
    intro m h
    rw [List.foldl_cons]
    refine ih _ ?_
    rw [assocStep_eq]
    by_cases hb : (extract_cpt_codes_from_paragraph (g0.paragraph.getD "")).isEmpty
    · rw [if_pos hb]; exact nodup_keys_foldExt _ _ _ h
    · rw [if_neg hb]; exact nodup_keys_foldExt _ _ _ h

lemma lookupA_of_mem_nodup {κ α : Type} [DecidableEq κ] :
    ∀ (m : List (κ × α)), (m.map Prod.fst).Nodup → ∀ (k : κ) (v : α), (k, v) ∈ m →
      lookupA m k = some v := by
  intro m
  induction m with
  | nil => intro _ k v h; simp at h
  | cons p rest ih =>
    obtain ⟨k1, v1⟩ := p
    intro hnd k v hm
    rcases List.mem_cons.mp hm with heq | hm
    · rw [Prod.mk.injEq] at heq
      obtain ⟨rfl, rfl⟩ := heq
      rw [lookupA, if_pos rfl]
    · rw [List.map_cons, List.nodup_cons] at hnd
      by_cases h : k1 = k
      · subst h
        exact absurd (List.mem_map.mpr ⟨(k1, v), hm, rfl⟩) hnd.1
      · rw [lookupA, if_neg h]
        exact ih hnd.2 k v hm

/-! ### Invariants of the reverse builder -/

lemma lookupA_revAdd_ne (cpt desc : String) (rev : List (String × RevEntry))
    (icd : IcdEntry) {d : String} (hd : d ≠ icd.code) :
    lookupA (revAdd cpt desc rev icd) d = lookupA rev d := by
  have h1 : revAdd cpt desc rev icd = revAppendCpt cpt desc icd.code
      (if (lookupA rev icd.code).isSome then rev
       else rev ++ [(icd.code, ⟨icd.code, icd.description, []⟩)]) := rfl
  rw [h1, lookupA_revAppendCpt_ne _ _ _ hd]
  by_cases hs : (lookupA rev icd.code).isSome
  · rw [if_pos hs]
  · rw [if_neg hs, lookupA_append_single, if_neg hd]
    by_cases h2 : (lookupA rev d).isSome
    · rw [if_pos h2]
    · rw [if_neg h2]
      exact (Option.not_isSome_iff_eq_none.mp h2).symm

lemma rev_inv_revAdd (Q : CptRef → Prop) (cpt desc : String) (hq : Q ⟨cpt, desc⟩)
    (rev : List (String × RevEntry)) (icd : IcdEntry)
    (hinv : ∀ d e, lookupA rev d = some e →
      (e.cpt_codes.map CptRef.code).Nodup ∧ ∀ r ∈ e.cpt_codes, Q r) :
    ∀ d e, lookupA (revAdd cpt desc rev icd) d = some e →
      (e.cpt_codes.map CptRef.code).Nodup ∧ ∀ r ∈ e.cpt_codes, Q r := by
  intro d e he
  by_cases hd : d = icd.code
  · subst hd
    have h1 : revAdd cpt desc rev icd = revAppendCpt cpt desc icd.code
        (if (lookupA rev icd.code).isSome then rev
         else rev ++ [(icd.code, ⟨icd.code, icd.description, []⟩)]) := rfl
    rw [h1, lookupA_revAppendCpt_eq] at he
    by_cases hs : (lookupA rev icd.code).isSome
    · rw [if_pos hs] at he
      obtain ⟨e1, he1⟩ := Option.isSome_iff_exists.mp hs
      rw [he1, Option.map_some', Option.some_inj] at he
      obtain ⟨hnd, hQ⟩ := hinv _ _ he1
      subst he
      by_cases hmem : cpt ∈ e1.cpt_codes.map CptRef.code
      · rw [if_pos hmem]
        exact ⟨hnd, hQ⟩
      · rw [if_neg hmem]
        constructor
        · show ((e1.cpt_codes ++ [(⟨cpt, desc⟩ : CptRef)]).map CptRef.code).Nodup
          rw [List.map_append, List.nodup_append]
          refine ⟨hnd, by simp, ?_⟩
          intro a ha hb
          simp only [List.map_cons, List.map_nil, List.mem_singleton] at hb
          subst hb
          exact hmem ha
        · intro r hr
          rcases List.mem_append.mp hr with hr | hr
          · exact hQ r hr
          · rw [List.mem_singleton] at hr
            subst hr
            exact hq
    · rw [if_neg hs, lookupA_append_single, if_neg hs, if_pos rfl, Option.map_some',
          Option.some_inj] at he
      subst he
      rw [if_neg (by simp)]
      constructor
      · simp
      · intro r hr
        simp only [List.nil_append, List.mem_singleton] at hr
        subst hr
        exact hq
  · rw [lookupA_revAdd_ne _ _ _ _ hd] at he
    exact hinv _ _ he

lemma rev_inv_foldIcds (Q : CptRef → Prop) (cpt desc : String) (hq : Q ⟨cpt, desc⟩) :
    ∀ (icds : List IcdEntry) (rev : List (String × RevEntry)),
      (∀ d e, lookupA rev d = some e →
        (e.cpt_codes.map CptRef.code).Nodup ∧ ∀ r ∈ e.cpt_codes, Q r) →
      ∀ d e, lookupA (icds.foldl (revAdd cpt desc) rev) d = some e →
        (e.cpt_codes.map CptRef.code).Nodup ∧ ∀ r ∈ e.cpt_codes, Q r := by
  intro icds
  induction icds with
  | nil => intro rev hinv; exact hinv
  | cons ic icds ih =>
    intro rev hinv
    rw [List.foldl_cons]
    exact ih _ (rev_inv_revAdd Q cpt desc hq rev ic hinv)

lemma rev_inv_foldPairs (Q : CptRef → Prop) :
    ∀ (P : List (String × CptEntry)) (rev : List (String × RevEntry)),
      (∀ p ∈ P, Q ⟨p.1, p.2.description⟩) →
      (∀ d e, lookupA rev d = some e →
        (e.cpt_codes.map CptRef.code).Nodup ∧ ∀ r ∈ e.cpt_codes, Q r) →
      ∀ d e, lookupA (P.foldl
          (fun rev p => p.2.icd10_codes.foldl (revAdd p.1 p.2.description) rev) rev) d
            = some e →
        (e.cpt_codes.map CptRef.code).Nodup ∧ ∀ r ∈ e.cpt_codes, Q r := by
  intro P
  induction P with
  | nil => intro rev _ hinv; exact hinv
  | cons p0 P ih =>
    intro rev hQ hinv
    rw [List.foldl_cons]
    refine ih _ (fun p hp => hQ p (by simp [hp])) ?_
    exact rev_inv_foldIcds Q p0.1 p0.2.description (hQ p0 (by simp)) p0.2.icd10_codes rev hinv

/-- Claim C6: deduplication always keeps the first-seen entry.  Every
`by_cpt` diagnosis list has pairwise-distinct codes and is the
code-deduplication of the accumulated association list, preserving for
every code the first entry (with its description and asterisk) in
accumulation order; and every reverse-mapping entry has pairwise-distinct
procedure codes, each carrying the description of the (unique, hence
first-seen) `by_cpt` entry for that procedure code, never overwritten by a
later occurrence. -/
theorem c6_dedup_first_seen (hs : List HcpcRecord) (ics : List Icd10Record)
    (grps : List GroupRecord) :
    (∀ p ∈ (build_cpt_icd10_mapping hs ics grps).by_cpt,
      (p.2.icd10_codes.map IcdEntry.code).Nodup ∧
      ∃ raw, lookupA (cptToIcd ((hcpcById hs).map Prod.fst) (icd10ByGroup ics) grps) p.1
          = some raw ∧
        p.2.icd10_codes = dedupByCode raw ∧
        ∀ c : String, p.2.icd10_codes.find? (fun ic => ic.code == c)
          = raw.find? (fun ic => ic.code == c)) ∧
    (∀ d e, lookupA (build_icd10_to_cpt_mapping hs ics grps) d = some e →
      (e.cpt_codes.map CptRef.code).Nodup ∧
      ∀ r ∈ e.cpt_codes, ∃ p ∈ (build_cpt_icd10_mapping hs ics grps).by_cpt,
        p.1 = r.code ∧ r.description = p.2.description) := by
  constructor
  · intro p hp
    have hb : (build_cpt_icd10_mapping hs ics grps).by_cpt =
        byCpt (hcpcById hs)
          (cptToIcd ((hcpcById hs).map Prod.fst) (icd10ByGroup ics) grps) := rfl
    rw [hb] at hp
    obtain ⟨q, hq, hpq⟩ := List.mem_map.mp hp
    subst hpq
    have hnodup : ((cptToIcd ((hcpcById hs).map Prod.fst) (icd10ByGroup ics) grps).map
        Prod.fst).Nodup :=
      nodup_keys_groupsFold grps [] (by simp)
    refine ⟨nodup_code_dedupGo q.2 [], q.2, ?_, rfl, ?_⟩
    · exact lookupA_of_mem_nodup _ hnodup q.1 q.2 (by exact hq)
    · intro c
      exact find_dedupGo c q.2 [] (by simp)
  · have hrev : build_icd10_to_cpt_mapping hs ics grps =
        (build_cpt_icd10_mapping hs ics grps).by_cpt.foldl
          (fun rev p => p.2.icd10_codes.foldl (revAdd p.1 p.2.description) rev) [] := rfl
    rw [hrev]
    refine rev_inv_foldPairs
      (fun r => ∃ p ∈ (build_cpt_icd10_mapping hs ics grps).by_cpt,
        p.1 = r.code ∧ r.description = p.2.description) _ []
      (fun p hp => ⟨p, hp, rfl, rfl⟩) ?_
    intro d e he
    cases he

/-- Witness for C6 at a concrete article with a duplicated diagnosis
record: the first-seen description is kept on both sides. -/
theorem c6_dedup_first_seen_witness :
    (∀ p ∈ (build_cpt_icd10_mapping
        [{ hcpc_code_id := some "81235" }]
        [{ icd10_code_id := some "C34.10", description := some "first",
           icd10_covered_group := some 1 },
         { icd10_code_id := some "C34.10", description := some "second",
           icd10_covered_group := some 1 }]
        [{ icd10_covered_group := some 1, paragraph := some "CPT code 81235" }]).by_cpt,
      (p.2.icd10_codes.map IcdEntry.code).Nodup ∧
      ∃ raw, lookupA (cptToIcd ((hcpcById
            [{ hcpc_code_id := some "81235" }]).map Prod.fst)
          (icd10ByGroup
            [{ icd10_code_id := some "C34.10", description := some "first",
               icd10_covered_group := some 1 },
             { icd10_code_id := some "C34.10", description := some "second",
               icd10_covered_group := some 1 }])
          [{ icd10_covered_group := some 1, paragraph := some "CPT code 81235" }]) p.1
          = some raw ∧
        p.2.icd10_codes = dedupByCode raw ∧
        ∀ c : String, p.2.icd10_codes.find? (fun ic => ic.code == c)
          = raw.find? (fun ic => ic.code == c)) ∧
    (∀ d e, lookupA (build_icd10_to_cpt_mapping
        [{ hcpc_code_id := some "81235" }]
        [{ icd10_code_id := some "C34.10", description := some "first",
           icd10_covered_group := some 1 },
         { icd10_code_id := some "C34.10", description := some "second",
           icd10_covered_group := some 1 }]
        [{ icd10_covered_group := some 1, paragraph := some "CPT code 81235" }]) d
          = some e →
      (e.cpt_codes.map CptRef.code).Nodup ∧
      ∀ r ∈ e.cpt_codes, ∃ p ∈ (build_cpt_icd10_mapping
          [{ hcpc_code_id := some "81235" }]
          [{ icd10_code_id := some "C34.10", description := some "first",
             icd10_covered_group := some 1 },
           { icd10_code_id := some "C34.10", description := some "second",
             icd10_covered_group := some 1 }]
          [{ icd10_covered_group := some 1, paragraph := some "CPT code 81235" }]).by_cpt,
        p.1 = r.code ∧ r.description = p.2.description) :=
  c6_dedup_first_seen _ _ _

/-! ### Character shape of extracted codes -/

lemma natDigit_digit : ∀ n : Nat, isDigitCh (natDigit n) = true := by
  intro n
  rcases n with _ | _ | _ | _ | _ | _ | _ | _ | _ | n
  · decide
  · decide
  · decide
  · decide
  · decide
  · decide
  · decide
  · decide
  · decide
  · show isDigitCh (natDigit (n + 9)) = true
    show isDigitCh ('9') = true
    decide

lemma natDigitsF_digits : ∀ (f n : Nat), ∀ c ∈ natDigitsF f n, isDigitCh c = true := by
  intro f
  induction f with
  | zero => intro n c hc; simp [natDigitsF] at hc
  | succ f ih =>
    intro n c hc
    rw [natDigitsF] at hc
    by_cases hn : n < 10
    · rw [if_pos hn] at hc
      rw [List.mem_singleton] at hc
      subst hc
      exact natDigit_digit n
    · rw [if_neg hn] at hc
      rcases List.mem_append.mp hc with hc | hc
      · exact ih (n / 10) c hc
      · rw [List.mem_singleton] at hc
        subst hc
        exact natDigit_digit (n % 10)

lemma pyStr_digits (n : Nat) : ∀ c ∈ (pyStr n).data, isDigitCh c = true := by
  intro c hc
  exact natDigitsF_digits (n + 1) n c hc

lemma pad4_digits (n : Nat) : ∀ c ∈ pad4 n, isDigitCh c = true := by
  intro c hc
  rcases List.mem_append.mp hc with hc | hc
  · rw [List.eq_of_mem_replicate hc]
    decide
  · exact natDigitsF_digits (n + 1) n c hc

lemma matchAlphaRange_upper {cs : List Char} {c1 c3 : Char} {a b : Nat}
    (h : matchAlphaRange cs = some (c1, a, c3, b)) : isUpperAZ c1 = true := by
  rcases cs with _ | ⟨c, r1⟩
  · exact Option.noConfusion h
  · rw [matchAlphaRange] at h
    by_cases hu : isUpperAZ c = true
    · rw [if_pos hu] at h
      have hc : c1 = c := by
        split at h
        · split at h
          · split at h
            · split at h
              · split at h
                · split at h
                  · cases h
                    rfl
                  · cases h
                · cases h
              · cases h
            · cases h
          · cases h
        · cases h
      rw [hc]
      exact hu
    · rw [if_neg hu] at h
      exact Option.noConfusion h

lemma matchSingle_shape {cs : List Char} {code : String}
    (h : matchSingle cs = some code) :
    ∀ ch ∈ code.data, isDigitCh ch = true ∨ isUpperAZ ch = true := by
  unfold matchSingle at h
  split at h
  · cases h
  · rename_i c rest
    split at h
    · split at h
      · rw [Option.some_inj] at h
        subst h
        intro ch hch
        rcases List.mem_cons.mp hch with rfl | hch
        · right; assumption
        · left
          rename_i hall _
          exact List.all_eq_true.mp hall.1 ch hch
      · cases h
    · split at h
      · rw [Option.some_inj] at h
        subst h
        intro ch hch
        left
        rename_i hall
        exact List.all_eq_true.mp hall.1 ch hch
      · cases h

lemma singleResult_shape (acc : List String) (part : List Char)
    (hacc : ∀ code ∈ acc, ∀ ch ∈ code.data, isDigitCh ch = true ∨ isUpperAZ ch = true) :
    ∀ code ∈ singleResult acc part, ∀ ch ∈ code.data,
      isDigitCh ch = true ∨ isUpperAZ ch = true := by
  intro code hcode
  unfold singleResult at hcode
  split at hcode
  · rcases List.mem_append.mp hcode with hc | hc
    · exact hacc code hc
    · rw [List.mem_singleton] at hc
      subst hc
      rename_i code0 heq
      exact matchSingle_shape heq
  · exact hacc code hcode

lemma parsePart_shape (acc : List String) (part : List Char)
    (hacc : ∀ code ∈ acc, ∀ ch ∈ code.data, isDigitCh ch = true ∨ isUpperAZ ch = true) :
    ∀ code ∈ parsePart acc part, ∀ ch ∈ code.data,
      isDigitCh ch = true ∨ isUpperAZ ch = true := by
  intro code hcode
  unfold parsePart at hcode
  split at hcode
  · exact hacc code hcode
  · split at hcode
    · split at hcode
      · rcases List.mem_append.mp hcode with hc | hc
        · exact hacc code hc
        · obtain ⟨n, -, rfl⟩ := List.mem_map.mp hc
          intro ch hch
          exact Or.inl (pyStr_digits n ch hch)
      · exact hacc code hcode
    · split at hcode
      · rename_i c1v av c3v bv heqalpha
        split at hcode
        · split at hcode
          · rcases List.mem_append.mp hcode with hc | hc
            · exact hacc code hc
            · obtain ⟨n, -, rfl⟩ := List.mem_map.mp hc
              intro ch hch
              rcases List.mem_cons.mp hch with rfl | hch
              · exact Or.inr (matchAlphaRange_upper heqalpha)
              · exact Or.inl (pad4_digits n ch hch)
          · exact hacc code hcode
        · exact singleResult_shape acc _ hacc code hcode
      · exact singleResult_shape acc _ hacc code hcode

lemma parse_code_list_shape (s : String) :
    ∀ code ∈ parse_code_list s, ∀ ch ∈ code.data,
      isDigitCh ch = true ∨ isUpperAZ ch = true := by
  unfold parse_code_list
  generalize splitCS (subAnd s.data) = parts
  suffices h : ∀ (parts : List (List Char)) (acc : List String),
      (∀ code ∈ acc, ∀ ch ∈ code.data, isDigitCh ch = true ∨ isUpperAZ ch = true) →
      ∀ code ∈ parts.foldl parsePart acc, ∀ ch ∈ code.data,
        isDigitCh ch = true ∨ isUpperAZ ch = true by
    exact h parts [] (by simp)
  intro parts
  induction parts with
  | nil => intro acc hacc; exact hacc
  | cons p0 ps ih =>
    intro acc hacc
    rw [List.foldl_cons]
    exact ih _ (parsePart_shape acc p0 hacc)

lemma jcodeScanF_shape :
    ∀ (f : Nat) (prev : Option Char) (s : List Char) (acc : List String),
      (∀ code ∈ acc, ∀ ch ∈ code.data, isDigitCh ch = true ∨ isUpperAZ ch = true) →
      ∀ code ∈ jcodeScanF f prev s acc, ∀ ch ∈ code.data,
        isDigitCh ch = true ∨ isUpperAZ ch = true := by
  intro f
  induction f with
  | zero => intro prev s acc hacc; exact hacc
  | succ f ih =>
    intro prev s acc hacc
    match s with
    | [] => exact hacc
    | [c] => exact ih _ _ _ hacc
    | [c, d1] => exact ih _ _ _ hacc
    | [c, d1, d2] => exact ih _ _ _ hacc
    | [c, d1, d2, d3] => exact ih _ _ _ hacc
    | c :: d1 :: d2 :: d3 :: d4 :: rest4 =>
      rw [jcodeScanF]
      split
      · rename_i hguard
        refine ih _ _ _ ?_
        intro code hcode
        by_cases hmem : (⟨[c, d1, d2, d3, d4]⟩ : String) ∈ acc
        · rw [if_pos hmem] at hcode
          exact hacc code hcode
        · rw [if_neg hmem] at hcode
          rcases List.mem_append.mp hcode with hc | hc
          · exact hacc code hc
          · rw [List.mem_singleton] at hc
            subst hc
            intro ch hch
            simp only [Bool.and_eq_true] at hguard
            have hch2 : ch ∈ [c, d1, d2, d3, d4] := hch
            simp only [List.mem_cons] at hch2
            rcases hch2 with rfl | rfl | rfl | rfl | rfl | hch2
            · exact Or.inr hguard.1.1.1.1.1.2
            · exact Or.inl hguard.1.1.1.1.2
            · exact Or.inl hguard.1.1.1.2
            · exact Or.inl hguard.1.1.2
            · exact Or.inl hguard.1.2
            · simp at hch2
      · exact ih _ _ _ hacc

lemma foldCaps_shape :
    ∀ (caps : List (List Char)) (acc : List String),
      (∀ code ∈ acc, ∀ ch ∈ code.data, isDigitCh ch = true ∨ isUpperAZ ch = true) →
      ∀ code ∈ caps.foldl (fun acc cap => acc ++ parse_code_list ⟨pyStrip cap⟩) acc,
        ∀ ch ∈ code.data, isDigitCh ch = true ∨ isUpperAZ ch = true := by
  intro caps
  induction caps with
  | nil => intro acc hacc; exact hacc
  | cons cap caps ih =>
    intro acc hacc
    rw [List.foldl_cons]
    refine ih _ ?_
    intro code hcode
    rcases List.mem_append.mp hcode with hc | hc
    · exact hacc code hc
    · exact parse_code_list_shape _ code hc

/-- Counterexample to claim C7: extraction is not case-normalizing.  A
lowercase code mention yields nothing, while the uppercase spelling of the
same paragraph yields the code, so the two extractions differ. -/
theorem c7_lowercase_counterexample :
    extract_cpt_codes_from_paragraph "cpt code j9271" ≠
      extract_cpt_codes_from_paragraph "CPT code J9271" ∧
    extract_cpt_codes_from_paragraph "cpt code j9271" = [] ∧
    extract_cpt_codes_from_paragraph "CPT code J9271" = ["J9271"] := by
  refine ⟨?_, by decide, by decide⟩
  decide

/-- Claim C7 (amended): every code string the extractor returns consists
of uppercase letters and digits only (the code-token patterns match only
uppercase letters, and numeric expansion produces digits).  Extraction is
uppercase-preserving rather than case-normalizing: as the counterexample
shows, lowercase code mentions are not recognized at all. -/
theorem c7_extracted_codes_uppercase (p : String) :
    ∀ code ∈ extract_cpt_codes_from_paragraph p, ∀ ch ∈ code.data,
      isDigitCh ch = true ∨ isUpperAZ ch = true := by
  intro code hcode
  unfold extract_cpt_codes_from_paragraph at hcode
  by_cases hp : p = ""
  · rw [if_pos hp] at hcode
    simp at hcode
  · rw [if_neg hp] at hcode
    have hcode2 : code ∈ (if ((findPrimary (stripTags (unescape_html p).data)).foldl
          (fun acc cap => acc ++ parse_code_list ⟨pyStrip cap⟩) []).isEmpty
        then jcodeScan (stripTags (unescape_html p).data)
        else (findPrimary (stripTags (unescape_html p).data)).foldl
          (fun acc cap => acc ++ parse_code_list ⟨pyStrip cap⟩) []) := hcode
    split at hcode2
    · exact jcodeScanF_shape _ _ _ _ (by simp) code hcode2
    · exact foldCaps_shape _ [] (by simp) code hcode2

/-- Witness for the amended C7: a concrete extraction whose single result
is uppercase-alphanumeric. -/
theorem c7_extracted_codes_uppercase_witness :
    "J9271" ∈ extract_cpt_codes_from_paragraph "CPT code J9271" ∧
    (∀ ch ∈ ("J9271" : String).data, isDigitCh ch = true ∨ isUpperAZ ch = true) :=
  ⟨by decide, c7_extracted_codes_uppercase "CPT code J9271" "J9271" (by decide)⟩
